import Mathlib

/-!
Verification of the crawl-orchestration engine in
`backend/app/services/crawler/scraper.py`.

The development shallowly embeds the pure algorithmic content of the
`WebCrawler` class: robots.txt parsing (`_parse_robots_content`), the
URL-likeness heuristic (`_looks_like_url` with `URL_PATH_PATTERN`), sitemap
parsing and the sitemap work-queue traversal (`_parse_sitemap`,
`_discover_from_sitemaps`), the page-crawl driver loop (`_crawl_pages`,
`_crawl_single_page`) and the phase sequencing of `crawl`.

External collaborators are modelled as explicit environment records:
- the HTTP client (aiohttp) becomes a function from URL to an optional
  `(status, bytes)` pair, `none` marking a raised exception;
- `gzip.decompress` becomes a function `Bytes → Option Bytes`,
  `none` marking `BadGzipFile`;
- `xml.etree.ElementTree.fromstring` becomes a function
  `Bytes → Option XmlElem`, `none` marking `ParseError`;
- the Playwright render-and-extract step of `_crawl_single_page` becomes a
  function from URL to an optional `(metadata, links)` pair, `none` marking
  any exception inside the try block (recorded as a `crawl_error`).

Python `set` values are modelled as duplicate-free lists built with
insert-if-absent (`List.insert`): membership, emptiness and size agree
with the set, and iterating the list is one linearisation of Python's
unspecified set iteration order (no verified property depends on that
order).  Python string primitives (`strip`, `lower`, `split`,
`startswith`, `endswith`) are modelled by structurally recursive
character-list functions so that every definition evaluates by kernel
reduction.

Async batches are linearised: inside `_crawl_single_page` the
visited-check and the visited-insert are adjacent with no await between
them, so per-URL effects are atomic and the batch is modelled as a fold in
`asyncio.gather` order.  Ghost fields (`parseLog`, `visitLog`) record the
fetch/render events so that at-most-once properties are statable; they
mirror no source variable.
-/

/-! ### Bytes and Python string primitives -/

/-- Raw response bodies (`bytes` in Python). -/
abbrev Bytes := List Nat

/-- ASCII whitespace stripped by Python `str.strip()`. -/
def isPySpace (c : Char) : Bool :=
  c = ' ' ∨ c = '\t' ∨ c = '\n' ∨ c = '\r' ∨ c = '\x0b' ∨ c = '\x0c'

/-- `str.strip()`: drop leading and trailing whitespace. -/
def pyStrip (s : String) : String :=
  ⟨((s.data.dropWhile isPySpace).reverse.dropWhile isPySpace).reverse⟩

/-- `str.lower()`, modelled for ASCII as per-character lower-casing. -/
def pyLower (s : String) : String :=
  ⟨s.data.map Char.toLower⟩

/-- Split a character list at every occurrence of `sep`, keeping empty
segments (the semantics of Python `str.split(sep)` with an explicit
separator). -/
def splitOnCharList (sep : Char) : List Char → List (List Char)
  | [] => [[]]
  | c :: t =>
    if c = sep then [] :: splitOnCharList sep t
    else
      match splitOnCharList sep t with
      | h :: r => (c :: h) :: r
      | [] => [[c]]

/-- `content.split("\n")`. -/
def splitLines (s : String) : List String :=
  (splitOnCharList '\n' s.data).map fun cs => ⟨cs⟩

/-- Split a character list at the first colon: `line.split(":", 1)`.
`none` when the list has no colon (`":" in line` is false). -/
def splitFirstColonList : List Char → Option (List Char × List Char)
  | [] => none
  | c :: t =>
    if c = ':' then some ([], t)
    else
      match splitFirstColonList t with
      | some (a, b) => some (c :: a, b)
      | none => none

/-- `line.split(":", 1)` on strings. -/
def splitFirstColon (s : String) : Option (String × String) :=
  match splitFirstColonList s.data with
  | some (a, b) => some (⟨a⟩, ⟨b⟩)
  | none => none

/-- `s.startswith(p)`. -/
def strStartsWith (s p : String) : Bool :=
  p.data.isPrefixOf s.data

/-- `s.endswith(p)`. -/
def strEndsWith (s p : String) : Bool :=
  p.data.isSuffixOf s.data

/-- Value of a list of decimal digit characters, most significant
first. -/
def digitsToNat (cs : List Char) : Nat :=
  cs.foldl (fun n c => 10 * n + (c.toNat - 48)) 0

/-- Split a character list at the first exponent marker `e`/`E`:
returns the part before it and, when present, the part after it. -/
def splitAtExp : List Char → List Char × Option (List Char)
  | [] => ([], none)
  | c :: t =>
    if c = 'e' ∨ c = 'E' then ([], some t)
    else
      let (m, e) := splitAtExp t
      (c :: m, e)

/-- Parse the mantissa of a decimal literal: digits with an optional
fractional part, at least one digit overall (`2`, `2.`, `.5`, `1.25`). -/
def parseMantissa (cs : List Char) : Option ℚ :=
  let intPart := cs.takeWhile Char.isDigit
  let rest := cs.dropWhile Char.isDigit
  match rest with
  | [] => if intPart = [] then none else some (digitsToNat intPart)
  | '.' :: frac =>
    if frac.all Char.isDigit ∧ (intPart ≠ [] ∨ frac ≠ []) then
      some ((digitsToNat intPart : ℚ) + (digitsToNat frac : ℚ) / 10 ^ frac.length)
    else none
  | _ => none

/-- Python `float(value)` on an already-stripped string, modelled for plain
decimal literals with optional sign and exponent.  `none` is a raised
`ValueError`.  (`inf`/`nan`/hex forms and digit underscores are outside the
model; every input exercised here is either a plain decimal or rejected.) -/
def pyFloat (s : String) : Option ℚ :=
  let cs := s.data
  let (neg, cs1) :=
    match cs with
    | '+' :: t => (false, t)
    | '-' :: t => (true, t)
    | t => (false, t)
  let (mant, expPart) := splitAtExp cs1
  match parseMantissa mant with
  | none => none
  | some m =>
    let sm := if neg then -m else m
    match expPart with
    | none => some sm
    | some ecs =>
      let (eneg, ecs1) :=
        match ecs with
        | '+' :: t => (false, t)
        | '-' :: t => (true, t)
        | t => (false, t)
      if ecs1 ≠ [] ∧ ecs1.all Char.isDigit then
        let e : ℤ := (digitsToNat ecs1 : ℤ)
        some (sm * (10 : ℚ) ^ (if eneg then -e else e))
      else none

/-! ### `_parse_robots_content` -/

/-- Output dictionary of `_parse_robots_content` (keys `sitemaps`,
`allowed`, `disallowed`, `crawl_delay`). -/
structure RobotsData where
  sitemaps : List String
  allowed : List String
  disallowed : List String
  crawl_delay : Option ℚ
deriving DecidableEq

/-- The empty `result` dictionary `_parse_robots_content` starts from. -/
def robotsInit : RobotsData :=
  { sitemaps := [], allowed := [], disallowed := [], crawl_delay := none }

/-- Processing of one robots.txt line (the body of the `for line in
content.split("\n")` loop): strip, skip blanks and `#` comments, split on
the first `:`, dispatch on the lower-cased stripped directive name; a
`crawl-delay` value that fails `float()` is silently ignored; lines
without a colon and unknown directives are ignored. -/
def parseRobotsLine (r : RobotsData) (line0 : String) : RobotsData :=
  let line := pyStrip line0
  if line = "" ∨ strStartsWith line "#" then r
  else
    match splitFirstColon line with
    | none => r
    | some (d, v) =>
      let directive := pyLower (pyStrip d)
      let value := pyStrip v
      if directive = "sitemap" then { r with sitemaps := r.sitemaps ++ [value] }
      else if directive = "allow" then { r with allowed := r.allowed ++ [value] }
      else if directive = "disallow" then { r with disallowed := r.disallowed ++ [value] }
      else if directive = "crawl-delay" then
        match pyFloat value with
        | some q => { r with crawl_delay := some q }
        | none => r
      else r

/-- `WebCrawler._parse_robots_content`: fold the line handler over the
newline-split content.  Total by construction — parsing never raises;
only the `float()` call inside can, and it is caught. -/
def parse_robots_content (content : String) : RobotsData :=
  (splitLines content).foldl parseRobotsLine robotsInit

/-- The `crawl-delay` value carried by a line, when the line is a
crawl-delay directive after the same strip/comment/split steps as
`parseRobotsLine`; `none` for every other kind of line. -/
def crawlDelayValue (line0 : String) : Option String :=
  let line := pyStrip line0
  if line = "" ∨ strStartsWith line "#" then none
  else
    match splitFirstColon line with
    | none => none
    | some (d, v) =>
      if pyLower (pyStrip d) = "crawl-delay" then some (pyStrip v) else none

/-! ### `_looks_like_url` and `URL_PATH_PATTERN` -/

/-- Characters matched by the character class of `URL_PATH_PATTERN`
(word characters, hyphen, slash), with `\w` modelled over ASCII as
alphanumerics plus underscore. -/
def isPathChar (c : Char) : Bool :=
  c.isAlphanum ∨ c = '_' ∨ c = '-' ∨ c = '/'

/-- The page-file extensions of the alternation `(html?|php|aspx?|jsp)`. -/
def pageExts : List String := ["html", "htm", "php", "asp", "aspx", "jsp"]

/-- Core match of `URL_PATH_PATTERN`, the anchored regex
`"path chars, one or more; optional dot; optional extension"`
(source line 131), against a character list with `$` read as strict end of
input.  Since `.` is not a path character, a matching string has at most
one dot and the greedy scan is exact: a nonempty path-character run, then
optionally a dot followed by nothing or one of the extensions. -/
def pathCore (t : List Char) : Bool :=
  let body := t.takeWhile isPathChar
  let rest := t.dropWhile isPathChar
  (!body.isEmpty) &&
    (rest.isEmpty ||
      match rest with
      | '.' :: r => r.isEmpty || pageExts.any (fun e => decide (r = e.data))
      | _ => false)

/-- Drop a single trailing newline: Python's `$` also matches just before a
newline that ends the string. -/
def stripTrailingNewline (cs : List Char) : List Char :=
  if cs.getLast? = some '\n' then cs.dropLast else cs

/-- `URL_PATH_PATTERN.match(value)` as a Boolean: the anchored pattern with
Python `$` semantics. -/
def url_path_pattern_match (value : String) : Bool :=
  pathCore (stripTrailingNewline value.data)

/-- Attribute values rejected outright by `_looks_like_url`. -/
def skipPrefixes : List String := ["#", "javascript:", "mailto:", "tel:", "data:"]

/-- Attribute values accepted outright by `_looks_like_url`. -/
def acceptPrefixes : List String := ["/", "http://", "https://", "./"]

/-- `WebCrawler._looks_like_url`: reject empty values and the skip
prefixes, accept the URL prefixes, otherwise fall back to
`URL_PATH_PATTERN`. -/
def looks_like_url (value : String) : Bool :=
  if value = "" then false
  else if skipPrefixes.any (fun p => strStartsWith value p) then false
  else if acceptPrefixes.any (fun p => strStartsWith value p) then true
  else url_path_pattern_match value

/-! ### XML documents and `_parse_sitemap` -/

/-- An `xml.etree.ElementTree` element: namespace URI (empty string when
the tag carries no namespace), local tag name, text, child elements. -/
inductive XmlElem : Type where
  | elem : String → String → Option String → List XmlElem → XmlElem

/-- Namespace URI of an element. -/
def XmlElem.ns : XmlElem → String
  | .elem n _ _ _ => n

/-- Local tag name of an element. -/
def XmlElem.tag : XmlElem → String
  | .elem _ t _ _ => t

/-- Text of an element (`Element.text`, `none` for Python `None`). -/
def XmlElem.text : XmlElem → Option String
  | .elem _ _ tx _ => tx

/-- Direct child elements. -/
def XmlElem.children : XmlElem → List XmlElem
  | .elem _ _ _ cs => cs

mutual

/-- All strict descendants of an element, document order. -/
def descendants : XmlElem → List XmlElem
  | .elem _ _ _ cs => descendantsList cs

/-- Descendants-with-self of each element of a list, concatenated. -/
def descendantsList : List XmlElem → List XmlElem
  | [] => []
  | c :: t => c :: (descendants c ++ descendantsList t)

end

/-- `root.findall(".//a/b")`: the `b`-tagged children of every
`a`-tagged descendant of `root`, each tag qualified by a namespace URI
(empty URI = unprefixed search). -/
def findallPath (root : XmlElem) (ns1 t1 ns2 t2 : String) : List XmlElem :=
  (descendants root).flatMap fun e =>
    if e.ns = ns1 ∧ e.tag = t1 then
      e.children.filter fun c => decide (c.ns = ns2 ∧ c.tag = t2)
    else []

/-- The `loc` texts collected from a `findall` result: elements whose text
is present and non-empty (Python truthiness of `el.text`) contribute their
stripped text; the result is the built set, as a duplicate-free list. -/
def locTexts (els : List XmlElem) : List String :=
  (els.filterMap fun e =>
    match e.text with
    | some t => if t ≠ "" then some (pyStrip t) else none
    | none => none).dedup

/-- The sitemap XML namespace bound to the `sm` prefix in
`_parse_sitemap`. -/
def sitemapNs : String := "http://www.sitemaps.org/schemas/sitemap/0.9"

/-- Namespaced page-URL search `.//sm:url/sm:loc`. -/
def nsUrlSet (root : XmlElem) : List String :=
  locTexts (findallPath root sitemapNs "url" sitemapNs "loc")

/-- Namespaced child-sitemap search `.//sm:sitemap/sm:loc`. -/
def nsSitemapSet (root : XmlElem) : List String :=
  locTexts (findallPath root sitemapNs "sitemap" sitemapNs "loc")

/-- Fallback page-URL search `.//url/loc` without a namespace prefix. -/
def plainUrlSet (root : XmlElem) : List String :=
  locTexts (findallPath root "" "url" "" "loc")

/-- Fallback child-sitemap search `.//sitemap/loc` without a namespace
prefix. -/
def plainSitemapSet (root : XmlElem) : List String :=
  locTexts (findallPath root "" "sitemap" "" "loc")

/-- Document-shape recognition of `_parse_sitemap` (lines 333-354):
namespaced `urlset`/`sitemapindex` searches, retried without a namespace
prefix when both come back empty.  Returns `(page urls, child
sitemaps)`. -/
def extractFromXml (root : XmlElem) : List String × List String :=
  let child_sitemaps := nsSitemapSet root
  let urls := nsUrlSet root
  if urls = [] ∧ child_sitemaps = [] then
    (plainUrlSet root, plainSitemapSet root)
  else (urls, child_sitemaps)

/-- External collaborators of sitemap resolution.  `fetch` is the aiohttp
GET (`none` = the request raised, propagating to the caller's `except`);
`gunzip` is `gzip.decompress` (`none` = `BadGzipFile`); `fromstring` is
`ET.fromstring` (`none` = `ParseError`). -/
structure SitemapEnv where
  fetch : String → Option (Nat × Bytes)
  gunzip : Bytes → Option Bytes
  fromstring : Bytes → Option XmlElem

/-- `WebCrawler._parse_sitemap` (lines 292-356): fetch; on a non-200
status return empty sets; gzip-decompress when the URL ends in `.gz`
(decompression failure returns empty sets); parse the XML (a parse error
returns empty sets); extract the two URL sets.  `none` = the coroutine
raised (the fetch itself failed). -/
def parseSitemapResult (env : SitemapEnv) (sitemap_url : String) :
    Option (List String × List String) :=
  match env.fetch sitemap_url with
  | none => none
  | some (status, body) =>
    if status ≠ 200 then some ([], [])
    else
      match (if strEndsWith sitemap_url ".gz" then env.gunzip body else some body) with
      | none => some ([], [])
      | some content =>
        match env.fromstring content with
        | none => some ([], [])
        | some root => some (extractFromXml root)

/-- One entry of `self.errors`: the crawled or fetched URL and the value
of the `"type"` key; the message string is not modelled. -/
structure ErrorEntry where
  url : String
  etype : String
deriving DecidableEq

/-- State of the `_discover_from_sitemaps` work-queue loop.  `parseLog` is
a ghost trace of the URLs actually fetched and parsed, used to state the
at-most-once property. -/
structure DiscoverState where
  queue : List String
  processed : List String
  discovered : List String
  sitemapUrls : List String
  errors : List ErrorEntry
  parseLog : List String

/-- One iteration of the `while sitemaps_to_process` loop (lines 264-290):
pop the head; skip it if already processed; otherwise mark it processed,
parse it, and either record a `sitemap_parse_error` (the parse raised) or
merge the page URLs and enqueue the not-yet-processed child sitemaps,
adding each to the sitemap-URL set. -/
def discoverStep (env : SitemapEnv) (s : DiscoverState) : DiscoverState :=
  match s.queue with
  | [] => s
  | url :: rest =>
    if url ∈ s.processed then { s with queue := rest }
    else
      let s1 := { s with
        queue := rest
        processed := s.processed.insert url
        parseLog := s.parseLog ++ [url] }
      match parseSitemapResult env url with
      | none => { s1 with errors := s1.errors ++ [⟨url, "sitemap_parse_error"⟩] }
      | some (urls, children) =>
        let newChildren := children.filter fun c => decide (c ∉ s1.processed)
        { s1 with
          discovered := urls.foldl (fun d u => d.insert u) s1.discovered
          queue := s1.queue ++ newChildren
          sitemapUrls := newChildren.foldl (fun d u => d.insert u) s1.sitemapUrls }

/-- The `_discover_from_sitemaps` loop, fuel-indexed: run `discoverStep`
until the queue is empty or the fuel runs out. -/
def discoverLoop (env : SitemapEnv) : Nat → DiscoverState → DiscoverState
  | 0, s => s
  | fuel + 1, s =>
    match s.queue with
    | [] => s
    | _ :: _ => discoverLoop env fuel (discoverStep env s)

/-- The child sitemaps a URL contributes when parsed (empty when the parse
raises). -/
def sitemapChildren (env : SitemapEnv) (u : String) : List String :=
  match parseSitemapResult env u with
  | none => []
  | some (_, cs) => cs

/-- Termination measure for the work-queue loop over a finite universe
`U` of sitemap URLs: queue length plus the total child count of the
not-yet-processed universe elements. -/
def discoverMeasure (env : SitemapEnv) (U : List String) (s : DiscoverState) : Nat :=
  s.queue.length +
    ((U.filter fun u => decide (u ∉ s.processed)).map
      fun u => (sitemapChildren env u).length).sum

/-- Initial state of `_discover_from_sitemaps`: the seed queue (lines
256-261), nothing processed, nothing discovered, the seed sitemap set, the
errors accumulated so far, an empty ghost trace. -/
def initDiscoverState (seeds : List String) (errors0 : List ErrorEntry) : DiscoverState :=
  { queue := seeds
    processed := []
    discovered := []
    sitemapUrls := seeds
    errors := errors0
    parseLog := [] }

/-! ### `_crawl_pages` and `_crawl_single_page` -/

/-- `CrawlConfig` (machine integers as naturals, the float delay as a
rational).  Fields not used by the crawl-phase model (`timeout`,
`user_agent`) carry no constraint here and are kept for shape. -/
structure CrawlConfig where
  max_pages : Nat
  max_depth : Nat
  timeout : Nat
  aggressive_mode : Bool
  parallel_workers : Nat
  crawl_delay : ℚ
  respect_robots : Bool
  user_agent : String

/-- A `PageMetadata` record, reduced to its canonical key; the extraction
of the remaining fields happens inside the opaque rendering step and none
of the verified properties inspect them. -/
structure PageMeta where
  url : String
deriving DecidableEq

/-- The rendering collaborator of `_crawl_single_page`: `render` is the
whole navigate-extract try block (`none` = it raised, any cause), handing
back the page metadata and the extracted link set; `sameOrigin` is the
netloc comparison of lines 488-492. -/
structure RenderEnv where
  render : String → Option (PageMeta × List String)
  sameOrigin : String → Bool

/-- Mutable crawler state during `_crawl_pages`.  `depthMap` is the
`depth_map` dict as an association list (a key is only consed when absent,
so earlier bindings are never shadowed).  `visitLog` is a ghost trace of
the URLs added to `visited_urls`. -/
structure CrawlState where
  pagesToCrawl : List String
  depthMap : List (String × Nat)
  visited : List String
  pages : List PageMeta
  errors : List ErrorEntry
  visitLog : List String

/-- `depth_map.get(url)`: first binding of `url` in the association
list. -/
def dictGet (dm : List (String × Nat)) (u : String) : Option Nat :=
  match dm with
  | [] => none
  | (k, v) :: t => if u = k then some v else dictGet t u

/-- `_crawl_single_page` (lines 457-506), linearised: skip a URL already
visited; otherwise insert it into `visited_urls` *before* navigating, then
either return the metadata with the same-origin-filtered links, or record
a `crawl_error` and return no metadata.  The returned triple is the
`(page_meta, new_urls, depth)` tuple the driver merges. -/
def crawlSinglePage (env : RenderEnv) (s : CrawlState) (url : String) (depth : Nat) :
    CrawlState × (Option PageMeta × List String × Nat) :=
  if url ∈ s.visited then (s, (none, [], depth))
  else
    let s1 := { s with visited := s.visited.insert url, visitLog := s.visitLog ++ [url] }
    match env.render url with
    | some (meta, links) => (s1, (some meta, links.filter env.sameOrigin, depth))
    | none => ({ s1 with errors := s1.errors ++ [⟨url, "crawl_error"⟩] }, (none, [], depth))

/-- Batch assembly (lines 420-427): pop up to `batch_size` URLs off the
front of `pages_to_crawl`, keeping those not yet visited whose recorded
depth is at most `max_depth`; URLs failing either filter are dropped.
Returns the batch (in pop order, with depths) and the remaining queue. -/
def buildBatch (cfg : CrawlConfig) (dm : List (String × Nat)) (visited : List String) :
    Nat → List String → List (String × Nat) × List String
  | 0, q => ([], q)
  | _ + 1, [] => ([], [])
  | n + 1, url :: rest =>
    let bq := buildBatch cfg dm visited n rest
    if url ∉ visited then
      let d := (dictGet dm url).getD 0
      if d ≤ cfg.max_depth then ((url, d) :: bq.1, bq.2) else bq
    else bq

/-- Dispatch of one batch (lines 430-434), linearised in `asyncio.gather`
order: run `crawlSinglePage` on each batch member, threading the state and
collecting the result tuples in order. -/
def runBatch (env : RenderEnv) :
    CrawlState → List (String × Nat) → CrawlState × List (Option PageMeta × List String × Nat)
  | s, [] => (s, [])
  | s, (url, d) :: t =>
    let p := crawlSinglePage env s url d
    let q := runBatch env p.1 t
    (q.1, p.2 :: q.2)

/-- Merging one newly extracted URL (lines 444-448): a URL not yet visited
and absent from `depth_map` gets depth `depth + 1` and is appended to the
queue; otherwise nothing happens. -/
def addNewUrl (depth : Nat) (st : CrawlState) (u : String) : CrawlState :=
  if u ∉ st.visited ∧ dictGet st.depthMap u = none then
    { st with depthMap := (u, depth + 1) :: st.depthMap,
              pagesToCrawl := st.pagesToCrawl ++ [u] }
  else st

/-- Merging one batch result (lines 437-448): append the metadata to
`pages` when present, then fold the extracted URLs through
`addNewUrl`. -/
def mergeOne (s : CrawlState) (r : Option PageMeta × List String × Nat) : CrawlState :=
  let s1 :=
    match r.1 with
    | some m => { s with pages := s.pages ++ [m] }
    | none => s
  r.2.1.foldl (addNewUrl r.2.2) s1

/-- One iteration of the driver loop body (lines 412-448): size the
batch with `min(parallel_workers, len(pages_to_crawl), max_pages -
len(visited))`, build it, dispatch it, and merge the results. -/
def crawlIter (cfg : CrawlConfig) (env : RenderEnv) (s : CrawlState) : CrawlState :=
  let batchSize :=
    min cfg.parallel_workers (min s.pagesToCrawl.length (cfg.max_pages - s.visited.length))
  let bq := buildBatch cfg s.depthMap s.visited batchSize s.pagesToCrawl
  let rb := runBatch env { s with pagesToCrawl := bq.2 } bq.1
  rb.2.foldl mergeOne rb.1

/-- The `while pages_to_crawl and len(visited) < max_pages` driver loop
(lines 411-452), fuel-indexed: run iterations until the queue is empty or
the page budget is exhausted. -/
def crawlPagesLoop (cfg : CrawlConfig) (env : RenderEnv) : Nat → CrawlState → CrawlState
  | 0, s => s
  | fuel + 1, s =>
    if s.pagesToCrawl = [] ∨ ¬ s.visited.length < cfg.max_pages then s
    else crawlPagesLoop cfg env fuel (crawlIter cfg env s)

/-- Entry state of `_crawl_pages` (lines 408-409): the queue is the
discovered-URL list, every seed at depth 0, nothing visited; `pages` is
empty at this point and `errors` carries what earlier phases recorded. -/
def initCrawlState (seeds : List String) (errors0 : List ErrorEntry) : CrawlState :=
  { pagesToCrawl := seeds
    depthMap := seeds.map fun u => (u, 0)
    visited := []
    pages := []
    errors := errors0
    visitLog := [] }

/-! ### `crawl`: phase sequencing -/

/-- `WebCrawler.COMMON_PATHS`. -/
def COMMON_PATHS : List String :=
  ["/robots.txt", "/sitemap.xml", "/sitemap_index.xml",
   "/sitemap-index.xml", "/sitemaps.xml", "/sitemap.xml.gz",
   "/api", "/admin", "/login", "/logout", "/register", "/signup",
   "/404", "/search", "/contact", "/about", "/faq", "/help",
   "/terms", "/privacy", "/blog", "/news", "/products", "/services",
   "/categories", "/tags", "/archive", "/feed", "/rss", "/atom.xml"]

/-- `WebCrawler.CMS_PATTERNS`, flattened in the source's iteration
order. -/
def CMS_PATTERNS : List (String × List String) :=
  [("wordpress",
    ["/wp-admin", "/wp-login.php", "/wp-content",
     "/wp-json/wp/v2/posts", "/wp-json/wp/v2/pages",
     "/xmlrpc.php", "/feed"]),
   ("shopify",
    ["/admin", "/collections", "/products.json",
     "/cart", "/checkout", "/account/login",
     "/pages", "/blogs"]),
   ("drupal",
    ["/admin", "/user/login", "/node",
     "/sites/default", "/admin/content"]),
   ("joomla",
    ["/administrator", "/components",
     "/modules", "/plugins"]),
   ("magento",
    ["/admin", "/customer/account/login",
     "/catalog/category", "/checkout"])]

/-- All collaborators of a full `crawl` run.  `baseOf` is the
scheme-plus-netloc computation on the start URL (line 161); `urljoin` is
`urllib.parse.urljoin`; `fetchRobots` is the robots.txt GET (`none` = it
raised); `checkPath` is `_check_path_exists` (final URL of a 200 response
after redirects, `none` otherwise). -/
structure CrawlEnv where
  baseOf : String → String
  urljoin : String → String → String
  fetchRobots : Option (Nat × String)
  smap : SitemapEnv
  checkPath : String → Option String
  render : RenderEnv

/-- The final `CrawlResult` aggregate. -/
structure CrawlResultModel where
  pages : List PageMeta
  discovered_urls : List String
  sitemap_urls : List String
  errors : List ErrorEntry
  robots_data : Option RobotsData

/-- Phase 1, `_parse_robots_txt` (lines 187-219): on a 200 response parse
the body, collect the sitemap directives into the sitemap-URL set, and
raise (never lower) the configured crawl delay when `respect_robots` is
set and the parsed delay is truthy and larger; on a non-200 response do
nothing; on a raised fetch record a `robots_parse_error`.  Returns
(sitemap seeds, errors, robots dict, effective delay). -/
def parseRobotsPhase (cfg : CrawlConfig) (env : CrawlEnv) (base_url : String) :
    List String × List ErrorEntry × Option RobotsData × ℚ :=
  match env.fetchRobots with
  | none =>
    ([], [⟨env.urljoin base_url "/robots.txt", "robots_parse_error"⟩], none, cfg.crawl_delay)
  | some (status, content) =>
    if status = 200 then
      let rd := parse_robots_content content
      let delay :=
        if cfg.respect_robots then
          match rd.crawl_delay with
          | some d => if d ≠ 0 ∧ cfg.crawl_delay < d then d else cfg.crawl_delay
          | none => cfg.crawl_delay
        else cfg.crawl_delay
      (rd.sitemaps.foldl (fun acc u => acc.insert u) [], [], some rd, delay)
    else ([], [], none, cfg.crawl_delay)

/-- Phase 3a, `_check_common_paths` (lines 358-369): probe every common
path and add each confirmed final URL to the discovered set. -/
def checkCommonPaths (env : CrawlEnv) (base_url : String) (disc : List String) :
    List String :=
  COMMON_PATHS.foldl
    (fun d p =>
      match env.checkPath (env.urljoin base_url p) with
      | some u => d.insert u
      | none => d)
    disc

/-- Phase 3b, `_check_cms_patterns` (lines 371-383): probe every CMS
signature path and add each confirmed final URL to the discovered set. -/
def checkCmsPatterns (env : CrawlEnv) (base_url : String) (disc : List String) :
    List String :=
  CMS_PATTERNS.foldl
    (fun d cms =>
      cms.2.foldl
        (fun d2 p =>
          match env.checkPath (env.urljoin base_url p) with
          | some u => d2.insert u
          | none => d2)
        d)
    disc

/-- `WebCrawler.crawl` (lines 144-185): clear state, compute the base
URL, run the robots phase, resolve sitemaps (seeding the default
`/sitemap.xml` when robots yielded none), optionally probe common and CMS
paths, add the start URL to the discovered set, run the crawl loop, and
assemble the result.  `fuel1`/`fuel2` bound the two loops. -/
def crawlModel (cfg : CrawlConfig) (env : CrawlEnv) (fuel1 fuel2 : Nat)
    (start_url : String) : CrawlResultModel :=
  let base_url := env.baseOf start_url
  let ph := parseRobotsPhase cfg env base_url
  let smSeeds1 :=
    if ph.1 = [] then [env.urljoin base_url "/sitemap.xml"] else ph.1
  let d1 := discoverLoop env.smap fuel1 (initDiscoverState smSeeds1 ph.2.1)
  let disc1 :=
    if cfg.aggressive_mode then
      checkCmsPatterns env base_url (checkCommonPaths env base_url d1.discovered)
    else d1.discovered
  let disc2 := disc1.insert start_url
  let c1 := crawlPagesLoop cfg env.render fuel2 (initCrawlState disc2 d1.errors)
  { pages := c1.pages
    discovered_urls := disc2
    sitemap_urls := d1.sitemapUrls
    errors := c1.errors
    robots_data := ph.2.2.1 }

/-! ### Robots parsing lemmas and C5 -/

/-- The robots.txt body of the spec scenario. -/
def robotsSample : String :=
  "Sitemap: https://example.com/sitemap.xml\nCrawl-delay: 2\nDisallow: /admin"

/-- A line carrying a crawl-delay directive whose value fails `float()`
leaves the whole result dictionary unchanged. -/
lemma parseRobotsLine_crawlDelay_fail (r : RobotsData) (line v : String)
    (hv : crawlDelayValue line = some v) (hf : pyFloat v = none) :
    parseRobotsLine r line = r := by
  unfold crawlDelayValue at hv
  unfold parseRobotsLine
  by_cases hb : pyStrip line = "" ∨ strStartsWith (pyStrip line) "#"
  · simp [hb] at hv
  · simp only [if_neg hb] at hv ⊢
    cases hsp : splitFirstColon (pyStrip line) with
    | none => simp [hsp] at hv
    | some dv =>
      obtain ⟨d, w⟩ := dv
      simp only [hsp] at hv ⊢
      by_cases hd : pyLower (pyStrip d) = "crawl-delay"
      · rw [if_pos hd] at hv
        injection hv with hv'
        rw [hd, hv', hf]
        simp
      · simp [hd] at hv

/-- A line that is not a crawl-delay directive never touches the
`crawl_delay` field. -/
lemma parseRobotsLine_crawl_delay_other (r : RobotsData) (line : String)
    (h : crawlDelayValue line = none) :
    (parseRobotsLine r line).crawl_delay = r.crawl_delay := by
  unfold crawlDelayValue at h
  unfold parseRobotsLine
  by_cases hb : pyStrip line = "" ∨ strStartsWith (pyStrip line) "#"
  · simp [hb]
  · simp only [if_neg hb] at h ⊢
    cases hsp : splitFirstColon (pyStrip line) with
    | none => simp
    | some dv =>
      obtain ⟨d, w⟩ := dv
      simp only [hsp] at h ⊢
      by_cases hd : pyLower (pyStrip d) = "crawl-delay"
      · simp [hd] at h
      · by_cases h1 : pyLower (pyStrip d) = "sitemap"
        · simp [h1]
        · by_cases h2 : pyLower (pyStrip d) = "allow"
          · simp [h1, h2]
          · by_cases h3 : pyLower (pyStrip d) = "disallow"
            · simp [h1, h2, h3]
            · simp [h1, h2, h3, hd]

/-- Folding robots lines whose crawl-delay values (if any) all fail
`float()` keeps `crawl_delay` at `none`. -/
lemma foldl_robots_crawl_delay_none (ls : List String) (r : RobotsData)
    (h : ∀ l ∈ ls, (crawlDelayValue l).all (fun w => (pyFloat w).isNone) = true)
    (hr : r.crawl_delay = none) :
    ((ls.foldl parseRobotsLine r).crawl_delay) = none := by
  induction ls generalizing r with
  | nil => simpa using hr
  | cons l t ih =>
    have hl := h l (by simp)
    apply ih _ (fun x hx => h x (by simp [hx]))
    cases hcd : crawlDelayValue l with
    | none => rw [parseRobotsLine_crawl_delay_other r l hcd, hr]
    | some v =>
      rw [hcd] at hl
      simp only [Option.all_some, Option.isNone_iff_eq_none] at hl
      rw [parseRobotsLine_crawlDelay_fail r l v hcd hl, hr]

/-- C5: parsing the scenario body yields exactly the sitemap
`https://example.com/sitemap.xml`, crawl delay `2.0`, and `/admin` among
the disallowed paths; for every robots.txt body, a line whose crawl-delay
value is non-numeric is a complete no-op (so every other directive in the
document parses exactly as if the line were absent), and a body all of
whose crawl-delay values are non-numeric leaves the crawl-delay field
`none`.  Parsing is total (`parse_robots_content` is a Lean function), so
it never raises on malformed content. -/
theorem C5_robots_content_parsing :
    (parse_robots_content robotsSample).sitemaps = ["https://example.com/sitemap.xml"]
    ∧ (parse_robots_content robotsSample).crawl_delay = some 2
    ∧ "/admin" ∈ (parse_robots_content robotsSample).disallowed
    ∧ (∀ r line v, crawlDelayValue line = some v → pyFloat v = none →
        parseRobotsLine r line = r)
    ∧ (∀ content,
        (∀ l ∈ splitLines content, (crawlDelayValue l).all (fun w => (pyFloat w).isNone) = true) →
        (parse_robots_content content).crawl_delay = none) :=
  ⟨by decide, by decide, by decide,
   fun r line v hv hf => parseRobotsLine_crawlDelay_fail r line v hv hf,
   fun content h => foldl_robots_crawl_delay_none (splitLines content) robotsInit h rfl⟩

/-- C5 witness: the no-op and none-delay parts applied at the concrete
line `Crawl-delay: abc` and the concrete two-line body. -/
theorem C5_robots_content_parsing_witness :
    parseRobotsLine robotsInit "Crawl-delay: abc" = robotsInit
    ∧ (parse_robots_content "Sitemap: https://a.example/s.xml\nCrawl-delay: abc").crawl_delay
        = none :=
  ⟨C5_robots_content_parsing.2.2.2.1 robotsInit "Crawl-delay: abc" "abc" (by decide) (by decide),
   C5_robots_content_parsing.2.2.2.2 "Sitemap: https://a.example/s.xml\nCrawl-delay: abc"
     (by decide)⟩

/-! ### URL-likeness lemmas and C8 -/

/-- The pattern as the claim words it: path characters alone, or path
characters followed by a dot *and* one of the extensions (dot and
extension tied together). -/
def ClaimedPathToken (t : List Char) : Prop :=
  (t ≠ [] ∧ ∀ c ∈ t, isPathChar c = true) ∨
  (∃ body, ∃ e ∈ pageExts, t = body ++ '.' :: e.data ∧ body ≠ [] ∧
    ∀ c ∈ body, isPathChar c = true)

/-- The pattern as the regex actually reads: a nonempty run of path
characters, then an optional dot, then an optional extension — the dot
and the extension each independently optional. -/
def AmendedPathToken (t : List Char) : Prop :=
  ∃ body dot ext : List Char,
    t = body ++ dot ++ ext ∧ body ≠ [] ∧ (∀ c ∈ body, isPathChar c = true) ∧
    (dot = [] ∨ dot = ['.']) ∧ (ext = [] ∨ ∃ e ∈ pageExts, ext = e.data)

/-- Scanning a list all of whose elements satisfy `p` takes everything. -/
lemma takeWhile_all {p : Char → Bool} (l : List Char) (h : ∀ c ∈ l, p c = true) :
    l.takeWhile p = l ∧ l.dropWhile p = [] := by
  induction l with
  | nil => simp
  | cons a t ih =>
    have ha := h a (by simp)
    have ht := ih fun c hc => h c (by simp [hc])
    simp [List.takeWhile_cons, List.dropWhile_cons, ha, ht.1, ht.2]

/-- Scanning `l1 ++ c :: l2` where all of `l1` satisfies `p` and `c` does
not stops exactly at `c`. -/
lemma takeWhile_append_stop {p : Char → Bool} (l1 : List Char) (c : Char) (l2 : List Char)
    (h1 : ∀ x ∈ l1, p x = true) (hc : p c = false) :
    (l1 ++ c :: l2).takeWhile p = l1 ∧ (l1 ++ c :: l2).dropWhile p = c :: l2 := by
  induction l1 with
  | nil => simp [List.takeWhile_cons, List.dropWhile_cons, hc]
  | cons a t ih =>
    have ha := h1 a (by simp)
    have ht := ih fun x hx => h1 x (by simp [hx])
    simp [List.takeWhile_cons, List.dropWhile_cons, ha, ht.1, ht.2]

/-- Every character of every page-file extension is a path character. -/
lemma pageExts_all_path : ∀ e ∈ pageExts, ∀ c ∈ e.data, isPathChar c = true := by
  decide

/-- The dot is not a path character. -/
lemma dot_not_path : isPathChar '.' = false := by decide

/-- Unfolded form of `pathCore`. -/
lemma pathCore_eq (t : List Char) :
    pathCore t =
      ((!(t.takeWhile isPathChar).isEmpty) &&
        ((t.dropWhile isPathChar).isEmpty ||
          match t.dropWhile isPathChar with
          | '.' :: r => r.isEmpty || pageExts.any (fun e => decide (r = e.data))
          | _ => false)) := rfl

/-- The scan `pathCore` decides exactly the amended pattern. -/
lemma pathCore_iff_amended (t : List Char) :
    pathCore t = true ↔ AmendedPathToken t := by
  rw [pathCore_eq]
  constructor
  · intro h
    rw [Bool.and_eq_true, Bool.or_eq_true] at h
    obtain ⟨hbody, hrest⟩ := h
    have hsplit := List.takeWhile_append_dropWhile (p := isPathChar) (l := t)
    have hballpath : ∀ c ∈ t.takeWhile isPathChar, isPathChar c = true :=
      fun c hc => List.mem_takeWhile_imp hc
    have hbne : t.takeWhile isPathChar ≠ [] := by
      intro hnil
      rw [hnil] at hbody
      simp at hbody
    rcases hrest with hrest | hrest
    · rw [List.isEmpty_iff] at hrest
      rw [hrest] at hsplit
      refine ⟨t.takeWhile isPathChar, [], [], ?_, hbne, hballpath, Or.inl rfl, Or.inl rfl⟩
      conv_lhs => rw [← hsplit]
      simp
    · split at hrest
      case h_1 r heq =>
        rw [heq] at hsplit
        rw [Bool.or_eq_true] at hrest
        rcases hrest with hr | hr
        · rw [List.isEmpty_iff] at hr
          subst hr
          refine ⟨t.takeWhile isPathChar, ['.'], [], ?_, hbne, hballpath, Or.inr rfl, Or.inl rfl⟩
          conv_lhs => rw [← hsplit]
          simp
        · rw [List.any_eq_true] at hr
          obtain ⟨e, he, hre⟩ := hr
          rw [decide_eq_true_eq] at hre
          subst hre
          refine ⟨t.takeWhile isPathChar, ['.'], e.data, ?_, hbne, hballpath,
            Or.inr rfl, Or.inr ⟨e, he, rfl⟩⟩
          conv_lhs => rw [← hsplit]
          simp
      case h_2 => exact absurd hrest (by simp)
  · rintro ⟨body, dot, ext, rfl, hbne, hball, hdot, hext⟩
    rw [Bool.and_eq_true, Bool.or_eq_true]
    rcases hdot with rfl | rfl
    · have hextpath : ∀ c ∈ ext, isPathChar c = true := by
        rcases hext with rfl | hx
        · intro c hc; simp at hc
        · obtain ⟨e, he, rfl⟩ := hx
          exact pageExts_all_path e he
      have hall : ∀ c ∈ body ++ [] ++ ext, isPathChar c = true := by
        intro c hc
        simp only [List.append_nil, List.mem_append] at hc
        rcases hc with hc | hc
        · exact hball c hc
        · exact hextpath c hc
      have h1 := takeWhile_all (body ++ [] ++ ext) hall
      rw [h1.1, h1.2]
      refine ⟨?_, Or.inl rfl⟩
      have hne2 : body ++ [] ++ ext ≠ [] := by
        simp only [List.append_nil]
        intro hx
        exact hbne (List.append_eq_nil.mp hx).1
      simpa [List.isEmpty_iff] using hne2
    · rw [List.append_assoc, List.singleton_append]
      have h1 := takeWhile_append_stop body '.' ext hball dot_not_path
      rw [h1.1, h1.2]
      refine ⟨by simpa [List.isEmpty_iff] using hbne, Or.inr ?_⟩
      show (ext.isEmpty || pageExts.any fun e => decide (ext = e.data)) = true
      rcases hext with hx | hx
      · rw [hx]
        rfl
      · obtain ⟨e, he, rfl⟩ := hx
        rw [Bool.or_eq_true, List.any_eq_true]
        exact Or.inr ⟨e, he, decide_eq_true rfl⟩

/-- C8 counterexample: `"foo."` reaches the fallback pattern (no skip or
accept prefix applies), is accepted by `_looks_like_url` because the
regex's dot is optional independently of the extension, yet fails the
claim's pattern "word characters, hyphens and slashes, optionally
followed by a dot *and* one of the extensions". -/
theorem C8_counterexample :
    looks_like_url "foo." = true
    ∧ (skipPrefixes.any fun p => strStartsWith "foo." p) = false
    ∧ (acceptPrefixes.any fun p => strStartsWith "foo." p) = false
    ∧ ¬ ClaimedPathToken (String.data "foo.") := by
  refine ⟨by decide, by decide, by decide, ?_⟩
  rintro (⟨-, hall⟩ | ⟨body, e, he, heq, hb, -⟩)
  · exact absurd (hall '.' (by decide)) (by decide)
  · have hlen := congrArg List.length heq
    have hb1 : 1 ≤ body.length := List.length_pos.mpr hb
    have he3 : 3 ≤ e.data.length := by
      simp only [pageExts] at he
      fin_cases he <;> decide
    have h4 : (String.data "foo.").length = 4 := by decide
    rw [h4, List.length_append, List.length_cons] at hlen
    omega

/-- C8 (amended): `_looks_like_url` rejects the empty string and the
skip prefixes, accepts the accept prefixes, and otherwise accepts exactly
the values matching the path-token pattern read as the regex does: a
nonempty run of word characters, hyphens and slashes, then an optional
dot, then an optional extension among html, htm, php, asp, aspx, jsp —
the dot and the extension each independently optional — with a single
trailing newline tolerated before the end anchor (Python `$`).  The
claim's concrete examples all hold. -/
theorem C8_url_likeness_amended :
    (∀ value : String,
      looks_like_url value = true ↔
        (value ≠ ""
          ∧ (∀ p ∈ skipPrefixes, strStartsWith value p = false)
          ∧ ((∃ p ∈ acceptPrefixes, strStartsWith value p = true)
              ∨ AmendedPathToken (stripTrailingNewline value.data))))
    ∧ looks_like_url "javascript:alert(1)" = false
    ∧ looks_like_url "/products/42" = true
    ∧ looks_like_url "https://x.com/y" = true
    ∧ looks_like_url "./rel" = true := by
  refine ⟨?_, by decide, by decide, by decide, by decide⟩
  intro value
  unfold looks_like_url
  by_cases h1 : value = ""
  · simp [h1]
  · rw [if_neg h1]
    by_cases h2 : skipPrefixes.any (fun p => strStartsWith value p) = true
    · rw [if_pos h2]
      rw [List.any_eq_true] at h2
      obtain ⟨p, hp, hsp⟩ := h2
      constructor
      · intro hfalse
        exact absurd hfalse (by simp)
      · rintro ⟨-, hskip, -⟩
        rw [hskip p hp] at hsp
        exact absurd hsp (by simp)
    · rw [if_neg h2]
      have hskip : ∀ p ∈ skipPrefixes, strStartsWith value p = false := by
        intro p hp
        by_cases hx : strStartsWith value p = true
        · exact absurd (List.any_eq_true.mpr ⟨p, hp, hx⟩) h2
        · simpa using hx
      by_cases h3 : acceptPrefixes.any (fun p => strStartsWith value p) = true
      · rw [if_pos h3]
        rw [List.any_eq_true] at h3
        simp only [true_iff]
        exact ⟨h1, hskip, Or.inl h3⟩
      · rw [if_neg h3]
        unfold url_path_pattern_match
        rw [pathCore_iff_amended]
        constructor
        · intro ha
          exact ⟨h1, hskip, Or.inr ha⟩
        · rintro ⟨-, -, hacc | ha⟩
          · exact absurd (List.any_eq_true.mpr hacc) h3
          · exact ha

/-! ### Sitemap document shapes and C6 -/

/-- A namespaced `urlset` document with two `url`/`loc` entries and no
`sitemap` entries. -/
def urlsetDoc : XmlElem :=
  .elem sitemapNs "urlset" none
    [.elem sitemapNs "url" none [.elem sitemapNs "loc" (some "https://example.com/page1") []],
     .elem sitemapNs "url" none [.elem sitemapNs "loc" (some "https://example.com/page2") []]]

/-- A namespaced `sitemapindex` document with two `sitemap`/`loc`
entries. -/
def indexDoc : XmlElem :=
  .elem sitemapNs "sitemapindex" none
    [.elem sitemapNs "sitemap" none [.elem sitemapNs "loc" (some "https://example.com/s1.xml") []],
     .elem sitemapNs "sitemap" none [.elem sitemapNs "loc" (some "https://example.com/s2.xml") []]]

/-- The same `urlset` document with the namespace declaration omitted. -/
def urlsetDocPlain : XmlElem :=
  .elem "" "urlset" none
    [.elem "" "url" none [.elem "" "loc" (some "https://example.com/page1") []],
     .elem "" "url" none [.elem "" "loc" (some "https://example.com/page2") []]]

/-- The same `sitemapindex` document with the namespace declaration
omitted. -/
def indexDocPlain : XmlElem :=
  .elem "" "sitemapindex" none
    [.elem "" "sitemap" none [.elem "" "loc" (some "https://example.com/s1.xml") []],
     .elem "" "sitemap" none [.elem "" "loc" (some "https://example.com/s2.xml") []]]

/-- C6: the two-entry `urlset` yields exactly the two page URLs and no
child sitemaps; the two-entry `sitemapindex` yields no page URLs and
exactly the two child sitemaps; whenever both namespaced searches come
back empty the extraction is exactly the pair of unprefixed searches; and
the namespace-free variants of the two documents yield the same results
as the namespaced originals. -/
theorem C6_sitemap_document_shapes :
    extractFromXml urlsetDoc
        = (["https://example.com/page1", "https://example.com/page2"], [])
    ∧ extractFromXml indexDoc
        = ([], ["https://example.com/s1.xml", "https://example.com/s2.xml"])
    ∧ (∀ root : XmlElem, nsUrlSet root = [] → nsSitemapSet root = [] →
        extractFromXml root = (plainUrlSet root, plainSitemapSet root))
    ∧ extractFromXml urlsetDocPlain = extractFromXml urlsetDoc
    ∧ extractFromXml indexDocPlain = extractFromXml indexDoc := by
  refine ⟨by decide, by decide, ?_, by decide, by decide⟩
  intro root h1 h2
  unfold extractFromXml
  rw [h1, h2]
  simp

/-- C6 witness: the fallback clause applied at the namespace-free
`urlset` document, whose namespaced searches are empty. -/
theorem C6_sitemap_document_shapes_witness :
    extractFromXml urlsetDocPlain = (plainUrlSet urlsetDocPlain, plainSitemapSet urlsetDocPlain) :=
  C6_sitemap_document_shapes.2.2.1 urlsetDocPlain (by decide) (by decide)

/-! ### C7: gzip round-trip -/

/-- C7: fetching a `.gz` sitemap URL whose body gzip-decompresses to
exactly the bytes `D`, and fetching a non-gz sitemap URL whose body is
`D` directly, produce identical `(page urls, child sitemaps)` results:
after the decompression branch both paths parse the same bytes. -/
theorem C7_gzip_roundtrip (env : SitemapEnv) (gzUrl plainUrl : String)
    (gzBytes plainBytes : Bytes)
    (hgz : strEndsWith gzUrl ".gz" = true)
    (hplain : strEndsWith plainUrl ".gz" = false)
    (hf1 : env.fetch gzUrl = some (200, gzBytes))
    (hun : env.gunzip gzBytes = some plainBytes)
    (hf2 : env.fetch plainUrl = some (200, plainBytes)) :
    parseSitemapResult env gzUrl = parseSitemapResult env plainUrl := by
  unfold parseSitemapResult
  rw [hf1, hf2, hgz, hplain]
  simp [hun]

/-- A concrete environment for the gzip scenario: byte `[0]` is the
compressed form of byte `[1]`, which parses to the two-entry
`urlset`. -/
def gzEnv : SitemapEnv :=
  { fetch := fun u =>
      if u = "https://example.com/sitemap.xml.gz" then some (200, [0])
      else if u = "https://example.com/sitemap.xml" then some (200, [1])
      else none
    gunzip := fun b => if b = [0] then some [1] else none
    fromstring := fun b => if b = [1] then some urlsetDoc else none }

/-- C7 witness: the round-trip equality at the concrete gzip
environment. -/
theorem C7_gzip_roundtrip_witness :
    parseSitemapResult gzEnv "https://example.com/sitemap.xml.gz"
      = parseSitemapResult gzEnv "https://example.com/sitemap.xml" :=
  C7_gzip_roundtrip gzEnv "https://example.com/sitemap.xml.gz" "https://example.com/sitemap.xml"
    [0] [1] (by decide) (by decide) (by decide) (by decide) (by decide)

/-! ### C4: non-200 and unparsable sitemaps -/

/-- Environment whose only sitemap URL answers with status 404. -/
def env404 : SitemapEnv :=
  { fetch := fun u => if u = "https://example.com/sitemap.xml" then some (404, []) else none
    gunzip := fun _ => none
    fromstring := fun _ => none }

/-- Environment whose only sitemap URL answers 200 with a body that fails
XML parsing. -/
def envBadXml : SitemapEnv :=
  { fetch := fun u => if u = "https://example.com/bad.xml" then some (200, [7]) else none
    gunzip := fun _ => none
    fromstring := fun _ => none }

/-- C4 counterexample: a sitemap whose fetch returns status 404 yields
empty result sets, and after the discovery loop processes it the error
list is still empty — no `sitemap_parse_error` entry is recorded,
contrary to the claim.  (`_discover_from_sitemaps` records that error
only when `_parse_sitemap` raises; a non-200 status and unparsable XML
are handled inside `_parse_sitemap` by returning empty sets without
raising.) -/
theorem C4_counterexample :
    parseSitemapResult env404 "https://example.com/sitemap.xml" = some ([], [])
    ∧ (discoverLoop env404 2 (initDiscoverState ["https://example.com/sitemap.xml"] [])).errors
        = []
    ∧ (discoverLoop env404 2 (initDiscoverState ["https://example.com/sitemap.xml"] [])).parseLog
        = ["https://example.com/sitemap.xml"]
    ∧ (discoverLoop env404 2 (initDiscoverState ["https://example.com/sitemap.xml"] [])).queue
        = [] :=
  ⟨by decide, by decide, by decide, by decide⟩

/-- C4 (amended): a non-200 fetch or an unparsable XML body yields the
empty URL set and the empty child-sitemap set for that sitemap; no error
entry is recorded for it (an error of kind `sitemap_parse_error` is
recorded only when the fetch itself raises), and the loop simply
continues with the remaining queue, leaving discovered and sitemap sets
unchanged. -/
theorem C4_bad_sitemap_is_silent_and_nonfatal :
    (∀ (env : SitemapEnv) (url : String) (st : Nat) (body : Bytes),
        env.fetch url = some (st, body) → st ≠ 200 →
        parseSitemapResult env url = some ([], []))
    ∧ (∀ (env : SitemapEnv) (url : String) (body : Bytes),
        env.fetch url = some (200, body) → strEndsWith url ".gz" = false →
        env.fromstring body = none →
        parseSitemapResult env url = some ([], []))
    ∧ (∀ (env : SitemapEnv) (s : DiscoverState) (url : String) (rest : List String),
        s.queue = url :: rest →
        parseSitemapResult env url = some ([], []) →
        (discoverStep env s).errors = s.errors
        ∧ (discoverStep env s).queue = rest
        ∧ (discoverStep env s).discovered = s.discovered
        ∧ (discoverStep env s).sitemapUrls = s.sitemapUrls)
    ∧ (∀ (env : SitemapEnv) (fuel : Nat) (s : DiscoverState),
        s.queue ≠ [] →
        discoverLoop env (fuel + 1) s = discoverLoop env fuel (discoverStep env s)) := by
  refine ⟨?_, ?_, ?_, ?_⟩
  · intro env url st body hf hst
    unfold parseSitemapResult
    rw [hf]
    simp [hst]
  · intro env url body hf hgz hxml
    unfold parseSitemapResult
    rw [hf, hgz]
    simp [hxml]
  · intro env s url rest hq hp
    unfold discoverStep
    rw [hq]
    by_cases hmem : url ∈ s.processed
    · simp [hmem]
    · simp [hmem, hp]
  · intro env fuel s hq
    cases hqe : s.queue with
    | nil => exact absurd hqe hq
    | cons a t =>
      show (match s.queue with
        | [] => s
        | _ :: _ => discoverLoop env fuel (discoverStep env s)) = _
      rw [hqe]

/-- C4 witness: the amended behaviour applied at the 404 environment, the
bad-XML environment, and the singleton seed queue. -/
theorem C4_bad_sitemap_witness :
    parseSitemapResult env404 "https://example.com/sitemap.xml" = some ([], [])
    ∧ parseSitemapResult envBadXml "https://example.com/bad.xml" = some ([], [])
    ∧ (discoverStep env404 (initDiscoverState ["https://example.com/sitemap.xml"] [])).errors
        = (initDiscoverState ["https://example.com/sitemap.xml"] []).errors
    ∧ discoverLoop env404 1 (initDiscoverState ["https://example.com/sitemap.xml"] [])
        = discoverLoop env404 0
            (discoverStep env404 (initDiscoverState ["https://example.com/sitemap.xml"] [])) :=
  ⟨C4_bad_sitemap_is_silent_and_nonfatal.1 env404 "https://example.com/sitemap.xml" 404 []
      (by decide) (by decide),
   C4_bad_sitemap_is_silent_and_nonfatal.2.1 envBadXml "https://example.com/bad.xml" [7]
      (by decide) (by decide) rfl,
   (C4_bad_sitemap_is_silent_and_nonfatal.2.2.1 env404
      (initDiscoverState ["https://example.com/sitemap.xml"] [])
      "https://example.com/sitemap.xml" [] (by decide) (by decide)).1,
   C4_bad_sitemap_is_silent_and_nonfatal.2.2.2 env404 0
      (initDiscoverState ["https://example.com/sitemap.xml"] []) (by decide)⟩

/-! ### C3: sitemap resolution terminates, each sitemap parsed once -/

/-- Sublists of natural-number lists have smaller sums. -/
lemma sum_le_sum_of_sublist {l1 l2 : List ℕ} (h : l1.Sublist l2) : l1.sum ≤ l2.sum := by
  induction h with
  | slnil => simp
  | cons a _ ih => simp only [List.sum_cons]; omega
  | cons₂ a _ ih => simp only [List.sum_cons]; omega

/-- The total child count over the unprocessed universe, the second
summand of `discoverMeasure`. -/
def pendingChildren (env : SitemapEnv) (U : List String) (processed : List String) : Nat :=
  ((U.filter fun u => decide (u ∉ processed)).map
    fun u => (sitemapChildren env u).length).sum

/-- Marking a universe member as processed removes at least its own child
count from the pending-children total. -/
lemma pendingChildren_insert (env : SitemapEnv) (U : List String)
    (processed : List String) (url : String) (hu : url ∈ U) (hp : url ∉ processed) :
    (sitemapChildren env url).length + pendingChildren env U (processed.insert url)
      ≤ pendingChildren env U processed := by
  induction U with
  | nil => simp at hu
  | cons a t ih =>
    unfold pendingChildren
    by_cases ha : a = url
    · subst ha
      have hfa : (a :: t).filter (fun u => decide (u ∉ processed.insert a))
          = t.filter (fun u => decide (u ∉ processed.insert a)) := by
        rw [List.filter_cons]
        have h1 : (decide (a ∉ processed.insert a)) = false := by
          simp [List.mem_insert_iff]
        rw [h1]
        simp
      have hfb : (a :: t).filter (fun u => decide (u ∉ processed))
          = a :: t.filter (fun u => decide (u ∉ processed)) := by
        rw [List.filter_cons]
        have h2 : (decide (a ∉ processed)) = true := by simpa using hp
        rw [h2]
        simp
      rw [hfa, hfb]
      simp only [List.map_cons, List.sum_cons]
      have hmono : ((t.filter fun u => decide (u ∉ processed.insert a)).map
            fun u => (sitemapChildren env u).length).sum
          ≤ ((t.filter fun u => decide (u ∉ processed)).map
            fun u => (sitemapChildren env u).length).sum := by
        apply sum_le_sum_of_sublist
        apply List.Sublist.map
        apply List.monotone_filter_right
        intro x hx
        simp only [decide_eq_true_eq, List.mem_insert_iff] at hx ⊢
        intro hmem
        exact hx (Or.inr hmem)
      omega
    · have hu' : url ∈ t := by
        rcases List.mem_cons.mp hu with h | h
        · exact absurd h.symm ha
        · exact h
      have iht := ih hu'
      unfold pendingChildren at iht
      have hsame : (decide (a ∉ processed.insert url)) = (decide (a ∉ processed)) := by
        simp only [decide_eq_decide, List.mem_insert_iff]
        constructor
        · intro h hmem
          exact h (Or.inr hmem)
        · intro h hmem
          rcases hmem with rfl | hmem
          · exact ha rfl
          · exact h hmem
      rw [List.filter_cons, List.filter_cons, hsame]
      cases hval : (decide (a ∉ processed)) with
      | false =>
        simp only [Bool.false_eq_true, if_false]
        exact iht
      | true =>
        simp only [if_true, List.map_cons, List.sum_cons]
        omega

/-- Unprocessed-set monotonicity: processing one URL never increases the
pending-children total. -/
lemma pendingChildren_insert_le (env : SitemapEnv) (U : List String)
    (processed : List String) (url : String) :
    pendingChildren env U (processed.insert url) ≤ pendingChildren env U processed := by
  apply sum_le_sum_of_sublist
  apply List.Sublist.map
  apply List.monotone_filter_right
  intro x hx
  simp only [decide_eq_true_eq, List.mem_insert_iff] at hx ⊢
  intro hmem
  exact hx (Or.inr hmem)

/-- `discoverMeasure` in terms of `pendingChildren`. -/
lemma discoverMeasure_def (env : SitemapEnv) (U : List String) (s : DiscoverState) :
    discoverMeasure env U s = s.queue.length + pendingChildren env U s.processed := rfl

/-- Step characterisation: an already-processed head is skipped. -/
lemma discoverStep_skip (env : SitemapEnv) (s : DiscoverState) (url : String)
    (rest : List String) (hq : s.queue = url :: rest) (hmem : url ∈ s.processed) :
    discoverStep env s = { s with queue := rest } := by
  unfold discoverStep
  rw [hq]
  simp [hmem]

/-- Step characterisation: a fresh head whose parse raises is marked
processed and logged, and the error entry is appended. -/
lemma discoverStep_raise (env : SitemapEnv) (s : DiscoverState) (url : String)
    (rest : List String) (hq : s.queue = url :: rest) (hmem : url ∉ s.processed)
    (hp : parseSitemapResult env url = none) :
    discoverStep env s = { s with
      queue := rest
      processed := s.processed.insert url
      parseLog := s.parseLog ++ [url]
      errors := s.errors ++ [⟨url, "sitemap_parse_error"⟩] } := by
  unfold discoverStep
  rw [hq]
  simp [hmem, hp]

/-- Step characterisation: a fresh head whose parse succeeds is marked
processed and logged, its page URLs are merged, and its not-yet-processed
children are enqueued and added to the sitemap-URL set. -/
lemma discoverStep_ok (env : SitemapEnv) (s : DiscoverState) (url : String)
    (rest : List String) (urls children : List String)
    (hq : s.queue = url :: rest) (hmem : url ∉ s.processed)
    (hp : parseSitemapResult env url = some (urls, children)) :
    discoverStep env s = { s with
      queue := rest ++ children.filter (fun c => decide (c ∉ s.processed.insert url))
      processed := s.processed.insert url
      parseLog := s.parseLog ++ [url]
      discovered := urls.foldl (fun d u => d.insert u) s.discovered
      sitemapUrls := (children.filter (fun c => decide (c ∉ s.processed.insert url))).foldl
        (fun d u => d.insert u) s.sitemapUrls } := by
  unfold discoverStep
  rw [hq]
  simp [hmem, hp]

/-- Each loop iteration strictly decreases the measure, provided the head
of the queue lies in the closed universe. -/
lemma discoverStep_measure_lt (env : SitemapEnv) (U : List String) (s : DiscoverState)
    (url : String) (rest : List String) (hq : s.queue = url :: rest) (hu : url ∈ U) :
    discoverMeasure env U (discoverStep env s) < discoverMeasure env U s := by
  by_cases hmem : url ∈ s.processed
  · rw [discoverStep_skip env s url rest hq hmem, discoverMeasure_def, discoverMeasure_def, hq]
    simp
  · cases hp : parseSitemapResult env url with
    | none =>
      rw [discoverStep_raise env s url rest hq hmem hp,
        discoverMeasure_def, discoverMeasure_def, hq]
      have h1 := pendingChildren_insert_le env U s.processed url
      simp only [List.length_cons]
      omega
    | some pr =>
      obtain ⟨urls, children⟩ := pr
      rw [discoverStep_ok env s url rest urls children hq hmem hp,
        discoverMeasure_def, discoverMeasure_def, hq]
      have hchild : sitemapChildren env url = children := by
        unfold sitemapChildren
        rw [hp]
      have h1 := pendingChildren_insert env U s.processed url hu hmem
      rw [hchild] at h1
      have h2 : (children.filter (fun c => decide (c ∉ s.processed.insert url))).length
          ≤ children.length := List.length_filter_le _ _
      simp only [List.length_cons, List.length_append]
      omega

/-- Each loop iteration keeps the queue inside the closed universe. -/
lemma discoverStep_queue_subset (env : SitemapEnv) (U : List String) (s : DiscoverState)
    (url : String) (rest : List String) (hq : s.queue = url :: rest)
    (hqU : ∀ u ∈ s.queue, u ∈ U)
    (hU : ∀ u ∈ U, ∀ c ∈ sitemapChildren env u, c ∈ U) (hu : url ∈ U) :
    ∀ u ∈ (discoverStep env s).queue, u ∈ U := by
  have hrest : ∀ u ∈ rest, u ∈ U := fun u huu => hqU u (by rw [hq]; simp [huu])
  by_cases hmem : url ∈ s.processed
  · rw [discoverStep_skip env s url rest hq hmem]
    exact hrest
  · cases hp : parseSitemapResult env url with
    | none =>
      rw [discoverStep_raise env s url rest hq hmem hp]
      exact hrest
    | some pr =>
      obtain ⟨urls, children⟩ := pr
      rw [discoverStep_ok env s url rest urls children hq hmem hp]
      intro u huu
      simp only [List.mem_append, List.mem_filter] at huu
      rcases huu with huu | ⟨huu, -⟩
      · exact hrest u huu
      · apply hU url hu
        unfold sitemapChildren
        rw [hp]
        exact huu

/-- One unfolding of the loop on a non-empty queue. -/
lemma discoverLoop_succ (env : SitemapEnv) (fuel : Nat) (s : DiscoverState)
    (url : String) (rest : List String) (hq : s.queue = url :: rest) :
    discoverLoop env (fuel + 1) s = discoverLoop env fuel (discoverStep env s) := by
  show (match s.queue with
    | [] => s
    | _ :: _ => discoverLoop env fuel (discoverStep env s)) = _
  rw [hq]

/-- One unfolding of the loop on an empty queue. -/
lemma discoverLoop_succ_nil (env : SitemapEnv) (fuel : Nat) (s : DiscoverState)
    (hq : s.queue = []) :
    discoverLoop env (fuel + 1) s = s := by
  show (match s.queue with
    | [] => s
    | _ :: _ => discoverLoop env fuel (discoverStep env s)) = _
  rw [hq]

/-- With fuel at least the measure over a closed universe, the loop
drains its queue: sitemap resolution terminates, cycles included. -/
lemma discoverLoop_queue_empty (env : SitemapEnv) (U : List String) :
    ∀ (fuel : Nat) (s : DiscoverState), (∀ u ∈ s.queue, u ∈ U) →
      (∀ u ∈ U, ∀ c ∈ sitemapChildren env u, c ∈ U) →
      discoverMeasure env U s ≤ fuel → (discoverLoop env fuel s).queue = [] := by
  intro fuel
  induction fuel with
  | zero =>
    intro s _ _ hm
    rw [discoverMeasure_def] at hm
    have : s.queue.length = 0 := by omega
    exact List.length_eq_zero.mp this
  | succ n ih =>
    intro s hqU hU hm
    cases hq : s.queue with
    | nil => rw [discoverLoop_succ_nil env n s hq]; exact hq
    | cons url rest =>
      have hu : url ∈ U := hqU url (by rw [hq]; simp)
      have hlt := discoverStep_measure_lt env U s url rest hq hu
      rw [discoverLoop_succ env n s url rest hq]
      exact ih (discoverStep env s)
        (discoverStep_queue_subset env U s url rest hq hqU hU hu) hU (by omega)

/-- The step either leaves the ghost parse trace and the processed set
unchanged, or extends both with one URL that was not yet processed. -/
lemma discoverStep_log (env : SitemapEnv) (s : DiscoverState) :
    ((discoverStep env s).parseLog = s.parseLog
      ∧ (discoverStep env s).processed = s.processed)
    ∨ ∃ url, url ∉ s.processed ∧ (discoverStep env s).parseLog = s.parseLog ++ [url]
        ∧ (discoverStep env s).processed = s.processed.insert url := by
  cases hq : s.queue with
  | nil =>
    left
    unfold discoverStep
    rw [hq]
    exact ⟨rfl, rfl⟩
  | cons url rest =>
    by_cases hmem : url ∈ s.processed
    · left
      rw [discoverStep_skip env s url rest hq hmem]
      exact ⟨rfl, rfl⟩
    · right
      refine ⟨url, hmem, ?_⟩
      cases hp : parseSitemapResult env url with
      | none =>
        rw [discoverStep_raise env s url rest hq hmem hp]
        exact ⟨rfl, rfl⟩
      | some pr =>
        obtain ⟨urls, children⟩ := pr
        rw [discoverStep_ok env s url rest urls children hq hmem hp]
        exact ⟨rfl, rfl⟩

/-- The ghost parse trace stays duplicate-free and inside the processed
set across the whole loop: each sitemap URL is fetched and parsed at most
once, however many times it is referenced. -/
lemma discoverLoop_log_invariant (env : SitemapEnv) :
    ∀ (fuel : Nat) (s : DiscoverState),
      s.parseLog.Nodup → (∀ u ∈ s.parseLog, u ∈ s.processed) →
      (discoverLoop env fuel s).parseLog.Nodup
      ∧ ∀ u ∈ (discoverLoop env fuel s).parseLog, u ∈ (discoverLoop env fuel s).processed := by
  intro fuel
  induction fuel with
  | zero => intro s h1 h2; exact ⟨h1, h2⟩
  | succ n ih =>
    intro s h1 h2
    cases hq : s.queue with
    | nil => rw [discoverLoop_succ_nil env n s hq]; exact ⟨h1, h2⟩
    | cons url rest =>
      rw [discoverLoop_succ env n s url rest hq]
      rcases discoverStep_log env s with ⟨ha, hb⟩ | ⟨u2, hmem, ha, hb⟩
      · exact ih (discoverStep env s) (ha ▸ h1) (fun u hu => hb ▸ h2 u (ha ▸ hu))
      · apply ih (discoverStep env s)
        · rw [ha]
          apply List.Nodup.append h1 (List.nodup_singleton u2)
          intro x hx hx2
          rw [List.mem_singleton] at hx2
          subst hx2
          exact hmem (h2 x hx)
        · intro u hu
          rw [ha, List.mem_append, List.mem_singleton] at hu
          rw [hb, List.mem_insert_iff]
          rcases hu with hu | rfl
          · exact Or.inr (h2 u hu)
          · exact Or.inl rfl

/-- C3: over any finite universe of sitemap URLs closed under the
child-sitemap relation, the work-queue loop started on seeds from the
universe drains its queue within `discoverMeasure` iterations — cyclic
sitemap indexes included — and the ghost fetch trace is duplicate-free:
each sitemap URL is fetched and parsed at most once, however many times
it is referenced, because of the processed-set guard. -/
theorem C3_sitemap_resolution_terminates (env : SitemapEnv) (U seeds : List String)
    (errors0 : List ErrorEntry) (fuel : Nat)
    (hseeds : ∀ u ∈ seeds, u ∈ U)
    (hclosed : ∀ u ∈ U, ∀ c ∈ sitemapChildren env u, c ∈ U)
    (hfuel : discoverMeasure env U (initDiscoverState seeds errors0) ≤ fuel) :
    (discoverLoop env fuel (initDiscoverState seeds errors0)).queue = []
    ∧ (discoverLoop env fuel (initDiscoverState seeds errors0)).parseLog.Nodup := by
  constructor
  · exact discoverLoop_queue_empty env U fuel (initDiscoverState seeds errors0) hseeds
      hclosed hfuel
  · exact (discoverLoop_log_invariant env fuel (initDiscoverState seeds errors0)
      List.nodup_nil (by intro u hu; simp [initDiscoverState] at hu)).1

/-- First sitemap URL of the cyclic scenario. -/
def siteA : String := "https://example.com/sitemapA.xml"

/-- Second sitemap URL of the cyclic scenario. -/
def siteB : String := "https://example.com/sitemapB.xml"

/-- Sitemap index document whose single entry points at `siteB`. -/
def idxA : XmlElem :=
  .elem sitemapNs "sitemapindex" none
    [.elem sitemapNs "sitemap" none [.elem sitemapNs "loc" (some siteB) []]]

/-- Sitemap index document whose single entry points back at `siteA`. -/
def idxB : XmlElem :=
  .elem sitemapNs "sitemapindex" none
    [.elem sitemapNs "sitemap" none [.elem sitemapNs "loc" (some siteA) []]]

/-- The cyclic environment: index A references B, index B references A
back. -/
def cycEnv : SitemapEnv :=
  { fetch := fun u =>
      if u = siteA then some (200, [0]) else if u = siteB then some (200, [1]) else none
    gunzip := fun _ => none
    fromstring := fun b => if b = [0] then some idxA else if b = [1] then some idxB else none }

/-- C3 witness: the cyclic index pair `A → B → A` terminates with an
empty queue and parses each of the two sitemaps exactly once. -/
theorem C3_sitemap_resolution_terminates_witness :
    (discoverLoop cycEnv 3 (initDiscoverState [siteA] [])).queue = []
    ∧ (discoverLoop cycEnv 3 (initDiscoverState [siteA] [])).parseLog.Nodup :=
  C3_sitemap_resolution_terminates cycEnv [siteA, siteB] [siteA] [] 3
    (by decide) (by decide) (by decide)

/-! ### Crawl-loop lemmas for C1, C2, C9 -/

/-- An already-visited URL is a complete no-op for `_crawl_single_page`. -/
lemma crawlSinglePage_mem (env : RenderEnv) (s : CrawlState) (url : String) (depth : Nat)
    (hmem : url ∈ s.visited) :
    crawlSinglePage env s url depth = (s, (none, [], depth)) := by
  unfold crawlSinglePage
  rw [if_pos hmem]

/-- A fresh URL is inserted into the visited set and the ghost visit
trace; the queue, depth map and page list are untouched by the page task
itself. -/
lemma crawlSinglePage_fields (env : RenderEnv) (s : CrawlState) (url : String) (depth : Nat)
    (hmem : url ∉ s.visited) :
    (crawlSinglePage env s url depth).1.visited = s.visited.insert url
    ∧ (crawlSinglePage env s url depth).1.visitLog = s.visitLog ++ [url]
    ∧ (crawlSinglePage env s url depth).1.depthMap = s.depthMap
    ∧ (crawlSinglePage env s url depth).1.pagesToCrawl = s.pagesToCrawl
    ∧ (crawlSinglePage env s url depth).1.pages = s.pages := by
  unfold crawlSinglePage
  rw [if_neg hmem]
  cases hr : env.render url with
  | none => exact ⟨rfl, rfl, rfl, rfl, rfl⟩
  | some pr =>
    obtain ⟨meta, links⟩ := pr
    exact ⟨rfl, rfl, rfl, rfl, rfl⟩

/-- The page task never rewrites the depth map. -/
lemma crawlSinglePage_depthMap (env : RenderEnv) (s : CrawlState) (url : String) (depth : Nat) :
    (crawlSinglePage env s url depth).1.depthMap = s.depthMap := by
  by_cases hmem : url ∈ s.visited
  · rw [crawlSinglePage_mem env s url depth hmem]
  · exact (crawlSinglePage_fields env s url depth hmem).2.2.1

/-- The page task never rewrites the queue. -/
lemma crawlSinglePage_queue (env : RenderEnv) (s : CrawlState) (url : String) (depth : Nat) :
    (crawlSinglePage env s url depth).1.pagesToCrawl = s.pagesToCrawl := by
  by_cases hmem : url ∈ s.visited
  · rw [crawlSinglePage_mem env s url depth hmem]
  · exact (crawlSinglePage_fields env s url depth hmem).2.2.2.1

/-- The page task never rewrites the page list. -/
lemma crawlSinglePage_pages (env : RenderEnv) (s : CrawlState) (url : String) (depth : Nat) :
    (crawlSinglePage env s url depth).1.pages = s.pages := by
  by_cases hmem : url ∈ s.visited
  · rw [crawlSinglePage_mem env s url depth hmem]
  · exact (crawlSinglePage_fields env s url depth hmem).2.2.2.2

/-- The visited set only grows inside a page task. -/
lemma crawlSinglePage_visited_mono (env : RenderEnv) (s : CrawlState) (url : String)
    (depth : Nat) : ∀ x ∈ s.visited, x ∈ (crawlSinglePage env s url depth).1.visited := by
  intro x hx
  by_cases hmem : url ∈ s.visited
  · rw [crawlSinglePage_mem env s url depth hmem]
    exact hx
  · rw [(crawlSinglePage_fields env s url depth hmem).1, List.mem_insert_iff]
    exact Or.inr hx

/-- Batch members come from the popped queue prefix and pass both
filters, with their depth read off the depth map. -/
lemma buildBatch_mem (cfg : CrawlConfig) (dm : List (String × Nat)) (visited : List String) :
    ∀ (n : Nat) (q : List String) (url : String) (d : Nat),
      (url, d) ∈ (buildBatch cfg dm visited n q).1 →
      url ∈ q ∧ url ∉ visited ∧ d = (dictGet dm url).getD 0 ∧ d ≤ cfg.max_depth := by
  intro n
  induction n with
  | zero => intro q url d h; simp [buildBatch] at h
  | succ m ih =>
    intro q url d h
    cases q with
    | nil => simp [buildBatch] at h
    | cons a t =>
      unfold buildBatch at h
      by_cases hv : a ∉ visited
      · rw [if_pos hv] at h
        by_cases hd : (dictGet dm a).getD 0 ≤ cfg.max_depth
        · rw [if_pos hd] at h
          rcases List.mem_cons.mp h with heq | hmem
          · rw [Prod.mk.injEq] at heq
            obtain ⟨rfl, rfl⟩ := heq
            exact ⟨by simp, hv, rfl, hd⟩
          · obtain ⟨hq, h2⟩ := ih t url d hmem
            exact ⟨by simp [hq], h2⟩
        · rw [if_neg hd] at h
          obtain ⟨hq, h2⟩ := ih t url d h
          exact ⟨by simp [hq], h2⟩
      · rw [if_neg hv] at h
        obtain ⟨hq, h2⟩ := ih t url d h
        exact ⟨by simp [hq], h2⟩

/-- The batch never exceeds the requested size. -/
lemma buildBatch_length (cfg : CrawlConfig) (dm : List (String × Nat))
    (visited : List String) :
    ∀ (n : Nat) (q : List String), (buildBatch cfg dm visited n q).1.length ≤ n := by
  intro n
  induction n with
  | zero => intro q; simp [buildBatch]
  | succ m ih =>
    intro q
    cases q with
    | nil => simp [buildBatch]
    | cons a t =>
      unfold buildBatch
      by_cases hv : a ∉ visited
      · rw [if_pos hv]
        by_cases hd : (dictGet dm a).getD 0 ≤ cfg.max_depth
        · rw [if_pos hd]
          have := ih t
          simp only [List.length_cons]
          omega
        · rw [if_neg hd]
          have := ih t
          omega
      · rw [if_neg hv]
        have := ih t
        omega

/-- The remaining queue is a subset of the input queue. -/
lemma buildBatch_rest_subset (cfg : CrawlConfig) (dm : List (String × Nat))
    (visited : List String) :
    ∀ (n : Nat) (q : List String) (u : String),
      u ∈ (buildBatch cfg dm visited n q).2 → u ∈ q := by
  intro n
  induction n with
  | zero => intro q u h; simpa [buildBatch] using h
  | succ m ih =>
    intro q u h
    cases q with
    | nil => simp [buildBatch] at h
    | cons a t =>
      unfold buildBatch at h
      by_cases hv : a ∉ visited
      · rw [if_pos hv] at h
        by_cases hd : (dictGet dm a).getD 0 ≤ cfg.max_depth
        · rw [if_pos hd] at h
          exact List.mem_cons.mpr (Or.inr (ih t u h))
        · rw [if_neg hd] at h
          exact List.mem_cons.mpr (Or.inr (ih t u h))
      · rw [if_neg hv] at h
        exact List.mem_cons.mpr (Or.inr (ih t u h))

/-- The batch dispatch never rewrites the depth map. -/
lemma runBatch_depthMap (env : RenderEnv) :
    ∀ (batch : List (String × Nat)) (s : CrawlState),
      (runBatch env s batch).1.depthMap = s.depthMap := by
  intro batch
  induction batch with
  | nil => intro s; rfl
  | cons hd t ih =>
    intro s
    obtain ⟨url, d⟩ := hd
    show (runBatch env (crawlSinglePage env s url d).1 t).1.depthMap = s.depthMap
    rw [ih, crawlSinglePage_depthMap]

/-- The batch dispatch never rewrites the queue. -/
lemma runBatch_queue (env : RenderEnv) :
    ∀ (batch : List (String × Nat)) (s : CrawlState),
      (runBatch env s batch).1.pagesToCrawl = s.pagesToCrawl := by
  intro batch
  induction batch with
  | nil => intro s; rfl
  | cons hd t ih =>
    intro s
    obtain ⟨url, d⟩ := hd
    show (runBatch env (crawlSinglePage env s url d).1 t).1.pagesToCrawl = s.pagesToCrawl
    rw [ih, crawlSinglePage_queue]

/-- The batch dispatch never rewrites the page list. -/
lemma runBatch_pages (env : RenderEnv) :
    ∀ (batch : List (String × Nat)) (s : CrawlState),
      (runBatch env s batch).1.pages = s.pages := by
  intro batch
  induction batch with
  | nil => intro s; rfl
  | cons hd t ih =>
    intro s
    obtain ⟨url, d⟩ := hd
    show (runBatch env (crawlSinglePage env s url d).1 t).1.pages = s.pages
    rw [ih, crawlSinglePage_pages]

/-- The visited set only grows across a batch. -/
lemma runBatch_visited_mono (env : RenderEnv) :
    ∀ (batch : List (String × Nat)) (s : CrawlState),
      ∀ x ∈ s.visited, x ∈ (runBatch env s batch).1.visited := by
  intro batch
  induction batch with
  | nil => intro s x hx; exact hx
  | cons hd t ih =>
    intro s x hx
    obtain ⟨url, d⟩ := hd
    exact ih (crawlSinglePage env s url d).1 x (crawlSinglePage_visited_mono env s url d x hx)

/-- A batch grows the visited set by at most its own length. -/
lemma runBatch_visited_length (env : RenderEnv) :
    ∀ (batch : List (String × Nat)) (s : CrawlState),
      (runBatch env s batch).1.visited.length ≤ s.visited.length + batch.length := by
  intro batch
  induction batch with
  | nil => intro s; simp [runBatch]
  | cons hd t ih =>
    intro s
    obtain ⟨url, d⟩ := hd
    have h1 : (crawlSinglePage env s url d).1.visited.length ≤ s.visited.length + 1 := by
      by_cases hmem : url ∈ s.visited
      · rw [crawlSinglePage_mem env s url d hmem]
        exact Nat.le_succ _
      · rw [(crawlSinglePage_fields env s url d hmem).1,
          List.length_insert_of_not_mem hmem]
    have h2 := ih (crawlSinglePage env s url d).1
    show (runBatch env (crawlSinglePage env s url d).1 t).1.visited.length
      ≤ s.visited.length + (t.length + 1)
    omega

/-- The visited set stays duplicate-free across a batch. -/
lemma runBatch_visited_nodup (env : RenderEnv) :
    ∀ (batch : List (String × Nat)) (s : CrawlState),
      s.visited.Nodup → (runBatch env s batch).1.visited.Nodup := by
  intro batch
  induction batch with
  | nil => intro s h; exact h
  | cons hd t ih =>
    intro s h
    obtain ⟨url, d⟩ := hd
    apply ih
    by_cases hmem : url ∈ s.visited
    · rw [crawlSinglePage_mem env s url d hmem]
      exact h
    · rw [(crawlSinglePage_fields env s url d hmem).1]
      exact h.insert

/-- The ghost visit trace only grows across a batch. -/
lemma runBatch_log_mono (env : RenderEnv) :
    ∀ (batch : List (String × Nat)) (s : CrawlState),
      ∀ u ∈ s.visitLog, u ∈ (runBatch env s batch).1.visitLog := by
  intro batch
  induction batch with
  | nil => intro s u hu; exact hu
  | cons hd t ih =>
    intro s u hu
    obtain ⟨url, d⟩ := hd
    apply ih
    by_cases hmem : url ∈ s.visited
    · rw [crawlSinglePage_mem env s url d hmem]
      exact hu
    · rw [(crawlSinglePage_fields env s url d hmem).2.1, List.mem_append]
      exact Or.inl hu

/-- Every new entry of the ghost visit trace comes from the batch. -/
lemma runBatch_log_src (env : RenderEnv) :
    ∀ (batch : List (String × Nat)) (s : CrawlState),
      ∀ u ∈ (runBatch env s batch).1.visitLog,
        u ∈ s.visitLog ∨ ∃ d, (u, d) ∈ batch := by
  intro batch
  induction batch with
  | nil => intro s u hu; exact Or.inl hu
  | cons hd t ih =>
    intro s u hu
    obtain ⟨url, d⟩ := hd
    have := ih (crawlSinglePage env s url d).1 u hu
    rcases this with hlog | ⟨d2, hd2⟩
    · by_cases hmem : url ∈ s.visited
      · rw [crawlSinglePage_mem env s url d hmem] at hlog
        exact Or.inl hlog
      · rw [(crawlSinglePage_fields env s url d hmem).2.1, List.mem_append,
          List.mem_singleton] at hlog
        rcases hlog with hlog | rfl
        · exact Or.inl hlog
        · exact Or.inr ⟨d, by simp⟩
    · exact Or.inr ⟨d2, by simp [hd2]⟩

/-- The ghost visit trace stays duplicate-free and inside the visited
set across a batch. -/
lemma runBatch_log_inv (env : RenderEnv) :
    ∀ (batch : List (String × Nat)) (s : CrawlState),
      s.visitLog.Nodup → (∀ u ∈ s.visitLog, u ∈ s.visited) →
      (runBatch env s batch).1.visitLog.Nodup
      ∧ ∀ u ∈ (runBatch env s batch).1.visitLog, u ∈ (runBatch env s batch).1.visited := by
  intro batch
  induction batch with
  | nil => intro s h1 h2; exact ⟨h1, h2⟩
  | cons hd t ih =>
    intro s h1 h2
    obtain ⟨url, d⟩ := hd
    apply ih
    · by_cases hmem : url ∈ s.visited
      · rw [crawlSinglePage_mem env s url d hmem]
        exact h1
      · rw [(crawlSinglePage_fields env s url d hmem).2.1]
        apply List.Nodup.append h1 (List.nodup_singleton url)
        intro x hx hx2
        rw [List.mem_singleton] at hx2
        subst hx2
        exact hmem (h2 x hx)
    · intro u hu
      by_cases hmem : url ∈ s.visited
      · rw [crawlSinglePage_mem env s url d hmem] at hu ⊢
        exact h2 u hu
      · rw [(crawlSinglePage_fields env s url d hmem).2.1, List.mem_append,
          List.mem_singleton] at hu
        rw [(crawlSinglePage_fields env s url d hmem).1, List.mem_insert_iff]
        rcases hu with hu | rfl
        · exact Or.inr (h2 u hu)
        · exact Or.inl rfl

/-- Each successful result tuple of a batch accounts for one new entry of
the ghost visit trace. -/
lemma runBatch_count (env : RenderEnv) :
    ∀ (batch : List (String × Nat)) (s : CrawlState),
      s.visitLog.length + ((runBatch env s batch).2.countP fun r => r.1.isSome)
        ≤ (runBatch env s batch).1.visitLog.length := by
  intro batch
  induction batch with
  | nil => intro s; simp [runBatch]
  | cons hd t ih =>
    intro s
    obtain ⟨url, d⟩ := hd
    show s.visitLog.length
        + (((crawlSinglePage env s url d).2 :: (runBatch env (crawlSinglePage env s url d).1 t).2).countP
            fun r => r.1.isSome)
      ≤ (runBatch env (crawlSinglePage env s url d).1 t).1.visitLog.length
    rw [List.countP_cons]
    have h2 := ih (crawlSinglePage env s url d).1
    by_cases hmem : url ∈ s.visited
    · rw [crawlSinglePage_mem env s url d hmem] at h2 ⊢
      have h2a : s.visitLog.length + ((runBatch env s t).2.countP fun r => r.1.isSome)
          ≤ (runBatch env s t).1.visitLog.length := h2
      show s.visitLog.length
          + (((runBatch env s t).2.countP fun r => r.1.isSome)
            + if (none : Option PageMeta).isSome = true then 1 else 0)
        ≤ (runBatch env s t).1.visitLog.length
      simp only [Option.isSome_none, Bool.false_eq_true, if_false]
      omega
    · have hlen : (crawlSinglePage env s url d).1.visitLog.length = s.visitLog.length + 1 := by
        rw [(crawlSinglePage_fields env s url d hmem).2.1]
        simp
      rw [hlen] at h2
      have hle : (if ((crawlSinglePage env s url d).2.1.isSome : Bool) = true then 1 else 0) ≤ 1 := by
        split <;> omega
      omega

/-- Merging a discovered URL touches only the depth map and the queue. -/
lemma addNewUrl_fields (depth : Nat) (st : CrawlState) (u : String) :
    (addNewUrl depth st u).visited = st.visited
    ∧ (addNewUrl depth st u).visitLog = st.visitLog
    ∧ (addNewUrl depth st u).pages = st.pages
    ∧ (addNewUrl depth st u).errors = st.errors := by
  unfold addNewUrl
  split
  · exact ⟨rfl, rfl, rfl, rfl⟩
  · exact ⟨rfl, rfl, rfl, rfl⟩

/-- An existing depth binding survives merging a discovered URL: the
depth map is extended only at keys it does not yet bind. -/
lemma addNewUrl_dictGet (depth : Nat) (st : CrawlState) (u v : String) (x : Nat)
    (h : dictGet st.depthMap v = some x) :
    dictGet (addNewUrl depth st u).depthMap v = some x := by
  unfold addNewUrl
  by_cases hcond : u ∉ st.visited ∧ dictGet st.depthMap u = none
  · rw [if_pos hcond]
    show dictGet ((u, depth + 1) :: st.depthMap) v = some x
    unfold dictGet
    by_cases hv : v = u
    · subst hv
      rw [hcond.2] at h
      exact absurd h (by simp)
    · rw [if_neg hv]
      exact h
  · rw [if_neg hcond]
    exact h

/-- Merging a discovered URL keeps every queue entry bound in the depth
map: a URL is appended to the queue only together with its binding. -/
lemma addNewUrl_queue_dom (depth : Nat) (st : CrawlState) (u : String)
    (h : ∀ w ∈ st.pagesToCrawl, (dictGet st.depthMap w).isSome = true) :
    ∀ w ∈ (addNewUrl depth st u).pagesToCrawl,
      (dictGet (addNewUrl depth st u).depthMap w).isSome = true := by
  unfold addNewUrl
  by_cases hcond : u ∉ st.visited ∧ dictGet st.depthMap u = none
  · rw [if_pos hcond]
    intro w hw
    show (dictGet ((u, depth + 1) :: st.depthMap) w).isSome = true
    unfold dictGet
    by_cases hv : w = u
    · rw [if_pos hv]
      rfl
    · rw [if_neg hv]
      have hw2 : w ∈ st.pagesToCrawl := by
        rcases List.mem_append.mp hw with hw2 | hw2
        · exact hw2
        · rw [List.mem_singleton] at hw2
          exact absurd hw2 hv
      exact h w hw2
  · rw [if_neg hcond]
    exact h

/-- `addNewUrl_fields`, folded over a URL list. -/
lemma foldl_addNewUrl_fields (depth : Nat) :
    ∀ (ls : List String) (st : CrawlState),
      (ls.foldl (addNewUrl depth) st).visited = st.visited
      ∧ (ls.foldl (addNewUrl depth) st).visitLog = st.visitLog
      ∧ (ls.foldl (addNewUrl depth) st).pages = st.pages
      ∧ (ls.foldl (addNewUrl depth) st).errors = st.errors := by
  intro ls
  induction ls with
  | nil => intro st; exact ⟨rfl, rfl, rfl, rfl⟩
  | cons a t ih =>
    intro st
    have h1 := addNewUrl_fields depth st a
    have h2 := ih (addNewUrl depth st a)
    exact ⟨h2.1.trans h1.1, h2.2.1.trans h1.2.1, h2.2.2.1.trans h1.2.2.1,
      h2.2.2.2.trans h1.2.2.2⟩

/-- `addNewUrl_dictGet`, folded over a URL list. -/
lemma foldl_addNewUrl_dictGet (depth : Nat) :
    ∀ (ls : List String) (st : CrawlState) (v : String) (x : Nat),
      dictGet st.depthMap v = some x →
      dictGet ((ls.foldl (addNewUrl depth) st)).depthMap v = some x := by
  intro ls
  induction ls with
  | nil => intro st v x h; exact h
  | cons a t ih =>
    intro st v x h
    exact ih (addNewUrl depth st a) v x (addNewUrl_dictGet depth st a v x h)

/-- `addNewUrl_queue_dom`, folded over a URL list. -/
lemma foldl_addNewUrl_queue_dom (depth : Nat) :
    ∀ (ls : List String) (st : CrawlState),
      (∀ w ∈ st.pagesToCrawl, (dictGet st.depthMap w).isSome = true) →
      ∀ w ∈ (ls.foldl (addNewUrl depth) st).pagesToCrawl,
        (dictGet ((ls.foldl (addNewUrl depth) st)).depthMap w).isSome = true := by
  intro ls
  induction ls with
  | nil => intro st h; exact h
  | cons a t ih =>
    intro st h
    exact ih (addNewUrl depth st a) (addNewUrl_queue_dom depth st a h)

/-- Merging one batch result touches neither the visited set, the ghost
visit trace, nor the error list, and appends exactly one page record when
the result carries metadata. -/
lemma mergeOne_fields (s : CrawlState) (r : Option PageMeta × List String × Nat) :
    (mergeOne s r).visited = s.visited
    ∧ (mergeOne s r).visitLog = s.visitLog
    ∧ (mergeOne s r).errors = s.errors
    ∧ (mergeOne s r).pages.length
        = s.pages.length + (if r.1.isSome then 1 else 0) := by
  unfold mergeOne
  cases hr : r.1 with
  | none =>
    have h := foldl_addNewUrl_fields r.2.2 r.2.1 s
    exact ⟨h.1, h.2.1, h.2.2.2, by rw [h.2.2.1]; simp⟩
  | some m =>
    have h := foldl_addNewUrl_fields r.2.2 r.2.1 { s with pages := s.pages ++ [m] }
    exact ⟨h.1, h.2.1, h.2.2.2, by rw [h.2.2.1]; simp⟩

/-- An existing depth binding survives a batch-result merge. -/
lemma mergeOne_dictGet (s : CrawlState) (r : Option PageMeta × List String × Nat)
    (v : String) (x : Nat) (h : dictGet s.depthMap v = some x) :
    dictGet (mergeOne s r).depthMap v = some x := by
  unfold mergeOne
  cases hr : r.1 with
  | none => exact foldl_addNewUrl_dictGet r.2.2 r.2.1 s v x h
  | some m => exact foldl_addNewUrl_dictGet r.2.2 r.2.1 { s with pages := s.pages ++ [m] } v x h

/-- Queue-domain invariant survives a batch-result merge. -/
lemma mergeOne_queue_dom (s : CrawlState) (r : Option PageMeta × List String × Nat)
    (h : ∀ w ∈ s.pagesToCrawl, (dictGet s.depthMap w).isSome = true) :
    ∀ w ∈ (mergeOne s r).pagesToCrawl, (dictGet (mergeOne s r).depthMap w).isSome = true := by
  unfold mergeOne
  cases hr : r.1 with
  | none => exact foldl_addNewUrl_queue_dom r.2.2 r.2.1 s h
  | some m => exact foldl_addNewUrl_queue_dom r.2.2 r.2.1 { s with pages := s.pages ++ [m] } h

/-- `mergeOne_fields`, folded over the batch results. -/
lemma foldl_mergeOne_fields :
    ∀ (rs : List (Option PageMeta × List String × Nat)) (st : CrawlState),
      (rs.foldl mergeOne st).visited = st.visited
      ∧ (rs.foldl mergeOne st).visitLog = st.visitLog
      ∧ (rs.foldl mergeOne st).errors = st.errors
      ∧ (rs.foldl mergeOne st).pages.length
          = st.pages.length + (rs.countP fun r => r.1.isSome) := by
  intro rs
  induction rs with
  | nil => intro st; exact ⟨rfl, rfl, rfl, by simp⟩
  | cons r t ih =>
    intro st
    have h1 := mergeOne_fields st r
    have h2 := ih (mergeOne st r)
    refine ⟨h2.1.trans h1.1, h2.2.1.trans h1.2.1, h2.2.2.1.trans h1.2.2.1, ?_⟩
    rw [List.countP_cons]
    show (t.foldl mergeOne (mergeOne st r)).pages.length = _
    rw [h2.2.2.2, h1.2.2.2]
    omega

/-- `mergeOne_dictGet`, folded over the batch results. -/
lemma foldl_mergeOne_dictGet :
    ∀ (rs : List (Option PageMeta × List String × Nat)) (st : CrawlState) (v : String) (x : Nat),
      dictGet st.depthMap v = some x →
      dictGet ((rs.foldl mergeOne st)).depthMap v = some x := by
  intro rs
  induction rs with
  | nil => intro st v x h; exact h
  | cons r t ih =>
    intro st v x h
    exact ih (mergeOne st r) v x (mergeOne_dictGet st r v x h)

/-- `mergeOne_queue_dom`, folded over the batch results. -/
lemma foldl_mergeOne_queue_dom :
    ∀ (rs : List (Option PageMeta × List String × Nat)) (st : CrawlState),
      (∀ w ∈ st.pagesToCrawl, (dictGet st.depthMap w).isSome = true) →
      ∀ w ∈ (rs.foldl mergeOne st).pagesToCrawl,
        (dictGet ((rs.foldl mergeOne st)).depthMap w).isSome = true := by
  intro rs
  induction rs with
  | nil => intro st h; exact h
  | cons r t ih =>
    intro st h
    exact ih (mergeOne st r) (mergeOne_queue_dom st r h)

/-- The driver-loop invariant: the visited set and the ghost visit trace
are duplicate-free, every logged URL is visited, the page budget holds,
every logged URL has a recorded depth within the depth budget, every
queued URL is bound in the depth map, and the page list is no longer than
the visit trace. -/
def CrawlInv (cfg : CrawlConfig) (s : CrawlState) : Prop :=
  s.visited.Nodup
  ∧ s.visitLog.Nodup
  ∧ (∀ u ∈ s.visitLog, u ∈ s.visited)
  ∧ s.visited.length ≤ cfg.max_pages
  ∧ (∀ u ∈ s.visitLog, ∃ d, dictGet s.depthMap u = some d ∧ d ≤ cfg.max_depth)
  ∧ (∀ u ∈ s.pagesToCrawl, (dictGet s.depthMap u).isSome = true)
  ∧ s.pages.length ≤ s.visitLog.length

/-- Build-dispatch-merge with any batch bound that fits in the remaining
budget preserves the invariant. -/
lemma batch_merge_inv (cfg : CrawlConfig) (env : RenderEnv) (s : CrawlState) (n : Nat)
    (hinv : CrawlInv cfg s) (hn : n ≤ cfg.max_pages - s.visited.length) :
    CrawlInv cfg
      ((runBatch env { s with pagesToCrawl := (buildBatch cfg s.depthMap s.visited n s.pagesToCrawl).2 }
          (buildBatch cfg s.depthMap s.visited n s.pagesToCrawl).1).2.foldl mergeOne
        (runBatch env { s with pagesToCrawl := (buildBatch cfg s.depthMap s.visited n s.pagesToCrawl).2 }
          (buildBatch cfg s.depthMap s.visited n s.pagesToCrawl).1).1) := by
  obtain ⟨hvnd, hlnd, hlv, hlen, hdepth, hdom, hpg⟩ := hinv
  set B := buildBatch cfg s.depthMap s.visited n s.pagesToCrawl with hB
  set smid : CrawlState := { s with pagesToCrawl := B.2 } with hsmid
  set R := runBatch env smid B.1 with hR
  have hf := foldl_mergeOne_fields R.2 R.1
  have hmidvis : smid.visited = s.visited := rfl
  have hmidlog : smid.visitLog = s.visitLog := rfl
  have hmiddm : smid.depthMap = s.depthMap := rfl
  have hmidpg : smid.pages = s.pages := rfl
  have hRdm : R.1.depthMap = s.depthMap := by
    rw [hR, runBatch_depthMap]
  have hloginv := runBatch_log_inv env B.1 smid (hmidlog ▸ hlnd)
    (fun u hu => hmidvis ▸ hlv u (hmidlog ▸ hu))
  refine ⟨?_, ?_, ?_, ?_, ?_, ?_, ?_⟩
  · rw [hf.1, hR]
    exact runBatch_visited_nodup env B.1 smid (hmidvis ▸ hvnd)
  · rw [hf.2.1]
    exact hloginv.1
  · intro u hu
    rw [hf.2.1] at hu
    rw [hf.1]
    exact hloginv.2 u hu
  · rw [hf.1]
    have h1 : R.1.visited.length ≤ smid.visited.length + B.1.length := by
      rw [hR]
      exact runBatch_visited_length env B.1 smid
    have h2 : B.1.length ≤ n := by
      rw [hB]
      exact buildBatch_length cfg s.depthMap s.visited n s.pagesToCrawl
    rw [hmidvis] at h1
    omega
  · intro u hu
    rw [hf.2.1] at hu
    have hsrc := runBatch_log_src env B.1 smid u hu
    rcases hsrc with hold | ⟨d, hd⟩
    · rw [hmidlog] at hold
      obtain ⟨d, hd1, hd2⟩ := hdepth u hold
      refine ⟨d, ?_, hd2⟩
      apply foldl_mergeOne_dictGet
      rw [hRdm]
      exact hd1
    · obtain ⟨hq, hnv, hgd, hdd⟩ := buildBatch_mem cfg s.depthMap s.visited n
        s.pagesToCrawl u d hd
      have hsome := hdom u hq
      rw [Option.isSome_iff_exists] at hsome
      obtain ⟨d0, hd0⟩ := hsome
      have : d = d0 := by rw [hgd, hd0]; rfl
      subst this
      refine ⟨d, ?_, hdd⟩
      apply foldl_mergeOne_dictGet
      rw [hRdm]
      exact hd0
  · apply foldl_mergeOne_queue_dom
    intro w hw
    have hq : R.1.pagesToCrawl = B.2 := by
      rw [hR, runBatch_queue]
    rw [hq] at hw
    have hw2 : w ∈ s.pagesToCrawl :=
      buildBatch_rest_subset cfg s.depthMap s.visited n s.pagesToCrawl w hw
    rw [hRdm]
    exact hdom w hw2
  · rw [hf.2.2.2, hf.2.1]
    have hp1 : R.1.pages = s.pages := by
      rw [hR, runBatch_pages]
    have hcount : smid.visitLog.length + (R.2.countP fun r => r.1.isSome)
        ≤ R.1.visitLog.length := by
      rw [hR]
      exact runBatch_count env B.1 smid
    rw [hmidlog] at hcount
    rw [hp1]
    omega

/-- The loop-body iteration preserves the invariant. -/
lemma crawlIter_inv (cfg : CrawlConfig) (env : RenderEnv) (s : CrawlState)
    (hinv : CrawlInv cfg s) : CrawlInv cfg (crawlIter cfg env s) := by
  have hn : min cfg.parallel_workers
      (min s.pagesToCrawl.length (cfg.max_pages - s.visited.length))
      ≤ cfg.max_pages - s.visited.length :=
    le_trans (min_le_right _ _) (min_le_right _ _)
  exact batch_merge_inv cfg env s _ hinv hn

/-- An existing depth binding survives the loop-body iteration. -/
lemma crawlIter_dictGet (cfg : CrawlConfig) (env : RenderEnv) (s : CrawlState)
    (v : String) (x : Nat) (h : dictGet s.depthMap v = some x) :
    dictGet (crawlIter cfg env s).depthMap v = some x := by
  unfold crawlIter
  apply foldl_mergeOne_dictGet
  rw [runBatch_depthMap]
  exact h

/-- The visited set only grows across the loop-body iteration. -/
lemma crawlIter_visited_mono (cfg : CrawlConfig) (env : RenderEnv) (s : CrawlState) :
    ∀ x ∈ s.visited, x ∈ (crawlIter cfg env s).visited := by
  intro x hx
  unfold crawlIter
  rw [(foldl_mergeOne_fields _ _).1]
  exact runBatch_visited_mono env _ _ x hx

/-- The driver loop preserves the invariant for any fuel. -/
lemma crawlPagesLoop_inv (cfg : CrawlConfig) (env : RenderEnv) :
    ∀ (fuel : Nat) (s : CrawlState), CrawlInv cfg s →
      CrawlInv cfg (crawlPagesLoop cfg env fuel s) := by
  intro fuel
  induction fuel with
  | zero => intro s h; exact h
  | succ n ih =>
    intro s h
    show CrawlInv cfg
      (if s.pagesToCrawl = [] ∨ ¬ s.visited.length < cfg.max_pages then s
       else crawlPagesLoop cfg env n (crawlIter cfg env s))
    by_cases hg : s.pagesToCrawl = [] ∨ ¬ s.visited.length < cfg.max_pages
    · rw [if_pos hg]
      exact h
    · rw [if_neg hg]
      exact ih _ (crawlIter_inv cfg env s h)

/-- An existing depth binding survives the whole driver loop: a URL's
depth is never revised after its first assignment. -/
lemma crawlPagesLoop_dictGet (cfg : CrawlConfig) (env : RenderEnv) :
    ∀ (fuel : Nat) (s : CrawlState) (v : String) (x : Nat),
      dictGet s.depthMap v = some x →
      dictGet (crawlPagesLoop cfg env fuel s).depthMap v = some x := by
  intro fuel
  induction fuel with
  | zero => intro s v x h; exact h
  | succ n ih =>
    intro s v x h
    show dictGet
      (if s.pagesToCrawl = [] ∨ ¬ s.visited.length < cfg.max_pages then s
       else crawlPagesLoop cfg env n (crawlIter cfg env s)).depthMap v = some x
    by_cases hg : s.pagesToCrawl = [] ∨ ¬ s.visited.length < cfg.max_pages
    · rw [if_pos hg]
      exact h
    · rw [if_neg hg]
      exact ih _ v x (crawlIter_dictGet cfg env s v x h)

/-- The visited set only grows across the whole driver loop: entries are
never removed. -/
lemma crawlPagesLoop_visited_mono (cfg : CrawlConfig) (env : RenderEnv) :
    ∀ (fuel : Nat) (s : CrawlState), ∀ x ∈ s.visited,
      x ∈ (crawlPagesLoop cfg env fuel s).visited := by
  intro fuel
  induction fuel with
  | zero => intro s x hx; exact hx
  | succ n ih =>
    intro s x hx
    show x ∈ (if s.pagesToCrawl = [] ∨ ¬ s.visited.length < cfg.max_pages then s
       else crawlPagesLoop cfg env n (crawlIter cfg env s)).visited
    by_cases hg : s.pagesToCrawl = [] ∨ ¬ s.visited.length < cfg.max_pages
    · rw [if_pos hg]
      exact hx
    · rw [if_neg hg]
      exact ih _ x (crawlIter_visited_mono cfg env s x hx)

/-- Every queue seed of the initial crawl state is bound at depth 0. -/
lemma dictGet_map_zero :
    ∀ (seeds : List String) (u : String), u ∈ seeds →
      (dictGet (seeds.map fun w => (w, 0)) u).isSome = true := by
  intro seeds
  induction seeds with
  | nil => intro u hu; simp at hu
  | cons a t ih =>
    intro u hu
    show (dictGet ((a, 0) :: t.map fun w => (w, 0)) u).isSome = true
    unfold dictGet
    by_cases ha : u = a
    · rw [if_pos ha]
      rfl
    · rw [if_neg ha]
      rcases List.mem_cons.mp hu with rfl | hmem
      · exact absurd rfl ha
      · exact ih u hmem

/-- The entry state of `_crawl_pages` satisfies the invariant. -/
lemma initCrawlState_inv (cfg : CrawlConfig) (seeds : List String)
    (errors0 : List ErrorEntry) : CrawlInv cfg (initCrawlState seeds errors0) := by
  refine ⟨List.nodup_nil, List.nodup_nil, ?_, ?_, ?_, ?_, ?_⟩
  · intro u hu
    simp [initCrawlState] at hu
  · simp [initCrawlState]
  · intro u hu
    simp [initCrawlState] at hu
  · intro u hu
    exact dictGet_map_zero seeds u hu
  · simp [initCrawlState]

/-- A duplicate-free list contained in another list is no longer than
it. -/
lemma nodup_subset_length_le {l1 l2 : List String} (h1 : l1.Nodup)
    (hsub : ∀ x ∈ l1, x ∈ l2) : l1.length ≤ l2.length := by
  have hs : l1.toFinset ⊆ l2.toFinset := by
    intro x hx
    rw [List.mem_toFinset] at hx ⊢
    exact hsub x hx
  have hc := Finset.card_le_card hs
  rw [List.toFinset_card_of_nodup h1] at hc
  exact le_trans hc (List.toFinset_card_le l2)

/-- C1: for every configuration, environment, seed list and fuel, the
crawl loop started from the entry state of `_crawl_pages` keeps
`|visited| ≤ max_pages` (so the number of rendered pages in the result
also stays within the budget), renders each URL at most once (the ghost
visit trace is duplicate-free and contained in the visited set), and
every rendered URL has a recorded depth at most `max_depth` in the final
depth map.  Quantifying over the fuel covers every intermediate state of
the loop. -/
theorem C1_budget_respected (cfg : CrawlConfig) (env : RenderEnv)
    (seeds : List String) (errors0 : List ErrorEntry) (fuel : Nat) :
    (crawlPagesLoop cfg env fuel (initCrawlState seeds errors0)).visited.length ≤ cfg.max_pages
    ∧ (crawlPagesLoop cfg env fuel (initCrawlState seeds errors0)).pages.length ≤ cfg.max_pages
    ∧ (crawlPagesLoop cfg env fuel (initCrawlState seeds errors0)).visitLog.Nodup
    ∧ (∀ u ∈ (crawlPagesLoop cfg env fuel (initCrawlState seeds errors0)).visitLog,
        u ∈ (crawlPagesLoop cfg env fuel (initCrawlState seeds errors0)).visited)
    ∧ (∀ u ∈ (crawlPagesLoop cfg env fuel (initCrawlState seeds errors0)).visitLog,
        ∃ d, dictGet (crawlPagesLoop cfg env fuel (initCrawlState seeds errors0)).depthMap u
            = some d ∧ d ≤ cfg.max_depth) := by
  obtain ⟨hvnd, hlnd, hlv, hlen, hdepth, _hdom, hpg⟩ :=
    crawlPagesLoop_inv cfg env fuel (initCrawlState seeds errors0)
      (initCrawlState_inv cfg seeds errors0)
  refine ⟨hlen, ?_, hlnd, hlv, hdepth⟩
  have hloglen := nodup_subset_length_le hlnd hlv
  omega

/-- C1 witness: the budget bounds at a concrete run. -/
theorem C1_budget_respected_witness :
    (crawlPagesLoop
        { max_pages := 2, max_depth := 1, timeout := 0, aggressive_mode := false,
          parallel_workers := 2, crawl_delay := 1, respect_robots := true, user_agent := "demo" }
        { render := fun _ => none, sameOrigin := fun _ => true }
        3 (initCrawlState ["https://example.com/"] [])).visited.length ≤ 2
    ∧ (crawlPagesLoop
        { max_pages := 2, max_depth := 1, timeout := 0, aggressive_mode := false,
          parallel_workers := 2, crawl_delay := 1, respect_robots := true, user_agent := "demo" }
        { render := fun _ => none, sameOrigin := fun _ => true }
        3 (initCrawlState ["https://example.com/"] [])).visitLog.Nodup :=
  ⟨(C1_budget_respected _ _ ["https://example.com/"] [] 3).1,
   (C1_budget_respected _ _ ["https://example.com/"] [] 3).2.2.1⟩

/-- C2: depth is assigned exactly once, at the moment a URL first enters
the pending queue, and is never revised: a fresh URL gets depth
`parent + 1` and is appended to the queue in the same merge step; a URL
already bound in the depth map is left completely unchanged by a later
re-discovery (first assignment wins, not shortest path); and an existing
binding survives the whole driver loop for any fuel. -/
theorem C2_first_seen_depth_wins :
    (∀ (depth : Nat) (st : CrawlState) (u : String),
        u ∉ st.visited → dictGet st.depthMap u = none →
        dictGet (addNewUrl depth st u).depthMap u = some (depth + 1)
        ∧ (addNewUrl depth st u).pagesToCrawl = st.pagesToCrawl ++ [u])
    ∧ (∀ (depth : Nat) (st : CrawlState) (u : String) (d : Nat),
        dictGet st.depthMap u = some d → addNewUrl depth st u = st)
    ∧ (∀ (cfg : CrawlConfig) (env : RenderEnv) (fuel : Nat) (s : CrawlState)
        (u : String) (d : Nat),
        dictGet s.depthMap u = some d →
        dictGet (crawlPagesLoop cfg env fuel s).depthMap u = some d) := by
  refine ⟨?_, ?_, ?_⟩
  · intro depth st u hv hd
    unfold addNewUrl
    rw [if_pos ⟨hv, hd⟩]
    constructor
    · show dictGet ((u, depth + 1) :: st.depthMap) u = some (depth + 1)
      unfold dictGet
      rw [if_pos rfl]
    · rfl
  · intro depth st u d hd
    unfold addNewUrl
    rw [if_neg]
    intro hcond
    rw [hcond.2] at hd
    exact absurd hd (by simp)
  · intro cfg env fuel s u d h
    exact crawlPagesLoop_dictGet cfg env fuel s u d h

/-- C2 witness: the three clauses at concrete states — a fresh URL gets
depth 1 when merged from a depth-0 page, a URL bound at depth 0 is
untouched by a merge at any other depth, and its binding survives the
loop. -/
theorem C2_first_seen_depth_wins_witness :
    dictGet (addNewUrl 0 (initCrawlState ["https://example.com/"] [])
        "https://example.com/a").depthMap "https://example.com/a" = some 1
    ∧ addNewUrl 5 (initCrawlState ["https://example.com/"] []) "https://example.com/"
        = initCrawlState ["https://example.com/"] []
    ∧ dictGet (crawlPagesLoop
        { max_pages := 2, max_depth := 1, timeout := 0, aggressive_mode := false,
          parallel_workers := 2, crawl_delay := 1, respect_robots := true, user_agent := "demo" }
        { render := fun _ => none, sameOrigin := fun _ => true }
        1 (initCrawlState ["https://example.com/"] [])).depthMap "https://example.com/"
        = some 0 :=
  ⟨(C2_first_seen_depth_wins.1 0 (initCrawlState ["https://example.com/"] [])
      "https://example.com/a" (by decide) (by decide)).1,
   C2_first_seen_depth_wins.2.1 5 (initCrawlState ["https://example.com/"] [])
      "https://example.com/" 0 (by decide),
   C2_first_seen_depth_wins.2.2 _ _ 1 (initCrawlState ["https://example.com/"] [])
      "https://example.com/" 0 (by decide)⟩

/-! ### C9: failed renders keep their budget slot -/

/-- C9: a URL whose render raises was already inserted into the visited
set before navigation, so it consumes one unit of the page budget; the
failure appends an error of kind `crawl_error`, contributes no metadata
(the page list is untouched), and the visited set never shrinks across
the rest of the loop, so the slot is never given back. -/
theorem C9_failed_render_consumes_budget (env : RenderEnv) (s : CrawlState)
    (url : String) (depth : Nat) (hmem : url ∉ s.visited)
    (hr : env.render url = none) :
    (crawlSinglePage env s url depth).1.visited = s.visited.insert url
    ∧ (crawlSinglePage env s url depth).1.visited.length = s.visited.length + 1
    ∧ (crawlSinglePage env s url depth).1.errors
        = s.errors ++ [⟨url, "crawl_error"⟩]
    ∧ (crawlSinglePage env s url depth).2.1 = none
    ∧ (crawlSinglePage env s url depth).1.pages = s.pages
    ∧ (∀ (cfg : CrawlConfig) (fuel : Nat) (t : CrawlState),
        ∀ x ∈ t.visited, x ∈ (crawlPagesLoop cfg env fuel t).visited) := by
  have hc : crawlSinglePage env s url depth
      = (({ s with
            visited := s.visited.insert url
            visitLog := s.visitLog ++ [url]
            errors := s.errors ++ [⟨url, "crawl_error"⟩] } : CrawlState),
         ((none, [], depth) : Option PageMeta × List String × Nat)) := by
    unfold crawlSinglePage
    rw [if_neg hmem, hr]
  rw [hc]
  refine ⟨rfl, ?_, rfl, rfl, rfl, ?_⟩
  · show (s.visited.insert url).length = s.visited.length + 1
    exact List.length_insert_of_not_mem hmem
  · intro cfg fuel t x hx
    exact crawlPagesLoop_visited_mono cfg env fuel t x hx

/-- C9 witness: the failure bookkeeping at a concrete state whose render
environment always raises. -/
theorem C9_failed_render_consumes_budget_witness :
    (crawlSinglePage { render := fun _ => none, sameOrigin := fun _ => true }
        (initCrawlState ["https://example.com/"] []) "https://example.com/" 0).1.errors
      = (initCrawlState ["https://example.com/"] []).errors
          ++ [⟨"https://example.com/", "crawl_error"⟩]
    ∧ (crawlSinglePage { render := fun _ => none, sameOrigin := fun _ => true }
        (initCrawlState ["https://example.com/"] []) "https://example.com/" 0).1.visited.length
      = (initCrawlState ["https://example.com/"] []).visited.length + 1 :=
  ⟨(C9_failed_render_consumes_budget _ (initCrawlState ["https://example.com/"] [])
      "https://example.com/" 0 (by decide) rfl).2.2.1,
   (C9_failed_render_consumes_budget _ (initCrawlState ["https://example.com/"] [])
      "https://example.com/" 0 (by decide) rfl).2.1⟩

/-! ### C10: the start URL is always discovered -/

/-- C10: for every configuration, environment and fuel, the start URL is
added to the discovered set before the traversal phase, and nothing later
removes it (`_crawl_pages` never touches `discovered_urls`), so the
returned result's discovered set contains the start URL even when
robots.txt, all sitemaps, and all path probes yield nothing. -/
theorem C10_start_url_always_discovered (cfg : CrawlConfig) (env : CrawlEnv)
    (fuel1 fuel2 : Nat) (start_url : String) :
    start_url ∈ (crawlModel cfg env fuel1 fuel2 start_url).discovered_urls := by
  unfold crawlModel
  exact List.mem_insert_self _ _

/-- An environment in which every collaborator fails or is empty: robots
404, no sitemap fetch succeeds, no probe confirms, every render
raises. -/
def barrenCrawlEnv : CrawlEnv :=
  { baseOf := fun _ => "https://example.com"
    urljoin := fun base p => base ++ p
    fetchRobots := some (404, "")
    smap := { fetch := fun _ => none, gunzip := fun _ => none, fromstring := fun _ => none }
    checkPath := fun _ => none
    render := { render := fun _ => none, sameOrigin := fun _ => true } }

/-- C10 witness: even in the barren environment the result's discovered
set contains the start URL. -/
theorem C10_start_url_always_discovered_witness :
    "https://example.com/" ∈ (crawlModel
      { max_pages := 2, max_depth := 1, timeout := 0, aggressive_mode := false,
        parallel_workers := 2, crawl_delay := 1, respect_robots := true, user_agent := "demo" }
      barrenCrawlEnv 2 2 "https://example.com/").discovered_urls :=
  C10_start_url_always_discovered _ barrenCrawlEnv 2 2 "https://example.com/"

/-- C8 witness: the amended equivalence applied at `"foo.html"` (accepted
through the pattern clause) and the concrete rejected example. -/
theorem C8_url_likeness_amended_witness :
    looks_like_url "javascript:alert(1)" = false
    ∧ looks_like_url "foo.html" = true :=
  ⟨C8_url_likeness_amended.2.1,
   (C8_url_likeness_amended.1 "foo.html").mpr
     ⟨by decide, by decide,
      Or.inr ⟨['f', 'o', 'o'], ['.'], ['h', 't', 'm', 'l'], by decide, by decide,
        by decide, Or.inr rfl, Or.inr ⟨"html", by decide, by decide⟩⟩⟩⟩
